import Mathlib

/-!
Verification development for the lp-dashboard backend core
(discovery + transaction cache + classification/filtering + grouping).

The Python sources are shallowly embedded:
dynamic dicts become structures whose fields are Option-typed when the code
distinguishes a missing key, USD amounts and prices become exact rationals,
unix timestamps become naturals, and the SQLite tables become lists of typed
rows.  Python truthiness tests (if x:) are modelled by explicit helpers.
-/

/-- Python truthiness of an optional integer: None and 0 are falsy. -/
def pyTruthyNat : Option Nat → Bool
  | none => false
  | some n => n != 0

/-- Python truthiness of an optional string: None and the empty string are falsy. -/
def pyTruthyOptStr : Option String → Bool
  | none => false
  | some s => s != ""

/-- Python truthiness of an optional list: None and the empty list are falsy. -/
def pyTruthyOptList : Option (List α) → Bool
  | none => false
  | some l => !l.isEmpty

/-- Python expression (s or d) for strings: the empty string falls back to the default. -/
def pyOrStr (s d : String) : String :=
  if s = "" then d else s

/-- Python expression (x or d) where x is an optional string (absent key or None). -/
def pyOrOptStr (x : Option String) (d : String) : String :=
  match x with
  | none => d
  | some s => pyOrStr s d

/-- Lower-case a string character by character (Python str.lower on ASCII data). -/
def strLower (s : String) : String :=
  String.mk (s.toList.map Char.toLower)

/-- Upper-case a string character by character (Python str.upper on ASCII data). -/
def strUpper (s : String) : String :=
  String.mk (s.toList.map Char.toUpper)

/-- Substring test: Python (needle in hay). -/
def strContains (hay needle : String) : Bool :=
  decide (needle.toList <:+: hay.toList)

/-- Prefix test: Python str.startswith. -/
def strStartsWith (s pre : String) : Bool :=
  pre.toList.isPrefixOf s.toList

/-- Lexicographic comparison of character lists by code point (the order
Python uses on strings). -/
def lexLe : List Char → List Char → Bool
  | [], _ => true
  | _ :: _, [] => false
  | a :: as, b :: bs =>
    if a.toNat < b.toNat then true
    else if b.toNat < a.toNat then false
    else lexLe as bs

/-- Python string less-or-equal. -/
def strLeB (a b : String) : Bool :=
  lexLe a.toList b.toList

/-- Insert an element into a sorted list before the first element it must
precede (the insertion step of a stable sort). -/
def orderedInsertB (le : α → α → Bool) (x : α) : List α → List α
  | [] => [x]
  | y :: ys => if le x y then x :: y :: ys else y :: orderedInsertB le x ys

/-- Stable insertion sort; with a reflexive total le it produces the same
list as Python sorted / list.sort with the corresponding key. -/
def insertionSortB (le : α → α → Bool) : List α → List α
  | [] => []
  | x :: xs => orderedInsertB le x (insertionSortB le xs)

/-- Replace non-overlapping occurrences of a nonempty pattern, left to right
(Python str.replace for nonempty patterns); the first argument is fuel. -/
def replaceChars (pat rep : List Char) : Nat → List Char → List Char
  | 0, l => l
  | _ + 1, [] => []
  | fuel + 1, c :: rest =>
    if pat.isPrefixOf (c :: rest) then
      rep ++ replaceChars pat rep fuel ((c :: rest).drop pat.length)
    else
      c :: replaceChars pat rep fuel rest

/-- Python str.replace for nonempty patterns. -/
def strReplace (s pat rep : String) : String :=
  String.mk (replaceChars pat.toList rep.toList s.toList.length s.toList)

/-- Python str.title on ASCII data: a letter is upper-cased when the previous
character is not a letter, and lower-cased otherwise. -/
def titleCase (s : String) : String :=
  let step := fun (p : List Char × Bool) (c : Char) =>
    let c2 := if p.2 then c.toLower else c.toUpper
    (p.1 ++ [c2], c.isAlpha)
  String.mk (s.toList.foldl step ([], false)).1

/-- Lookup in an insertion-ordered association list (Python dict.get). -/
def dictGet (d : List (String × α)) (k : String) : Option α :=
  (d.find? (fun kv => kv.1 == k)).map (·.2)

/-- Set a key in an insertion-ordered association list (Python dict assignment):
an existing key keeps its position, a new key is appended. -/
def dictSet (d : List (String × α)) (k : String) (v : α) : List (String × α) :=
  if (d.find? (fun kv => kv.1 == k)).isSome then
    d.map (fun kv => if kv.1 == k then (kv.1, v) else kv)
  else
    d ++ [(k, v)]

/-- Python dict.update: set every key of the second dict in the first. -/
def dictUpdate (d new : List (String × α)) : List (String × α) :=
  new.foldl (fun acc kv => dictSet acc kv.1 kv.2) d

/-- Apply a function to the value stored at the first occurrence of a key. -/
def dictModify (f : β → β) : List (String × β) → String → List (String × β)
  | [], _ => []
  | (k2, v) :: rest, k =>
    if k2 == k then (k2, f v) :: rest else (k2, v) :: dictModify f rest k

/-! ## Data model

Transaction and token-flow records as consumed by the core (DeBank raw shape,
section 3 of the spec).  Fields read with .get(key, default) where the default
is the only possible fallback are embedded with that default type directly;
fields whose absence the code tests are Option-typed. -/

/-- One entry of a sends or receives list of a transaction. -/
structure TokenFlow where
  tokenId : String := ""
  amount : ℚ := 0
  priceUsd : Option ℚ := none
  valueUsd : Option ℚ := none
  toAddr : String := ""
  fromAddr : String := ""
  symbol : String := ""
deriving DecidableEq, Repr

/-- The nested tx metadata dict ({name, hash, status}). -/
structure TxMeta where
  name : Option String := none
  hash : Option String := none
  status : Option Int := none
deriving DecidableEq, Repr

/-- A raw transaction record. category is the read-time annotation written by
the Build-page filter (the Python key underscore-category), cateName the
annotation written by discovery. -/
structure Tx where
  id : Option String := none
  chain : Option String := none
  timeAt : Option Nat := none
  projectId : Option String := none
  cateId : Option String := none
  cateName : Option String := none
  isScam : Option Bool := none
  txMeta : Option TxMeta := none
  sends : Option (List TokenFlow) := none
  receives : Option (List TokenFlow) := none
  category : Option String := none
deriving DecidableEq, Repr

/-- Token metadata entry of the token dictionary. -/
structure TokenInfo where
  price : Option ℚ := none
  isScam : Option Bool := none
  name : Option String := none
  symbol : Option String := none
  optimizedSymbol : Option String := none
deriving DecidableEq, Repr

/-- Project metadata entry of the project dictionary. -/
structure ProjInfo where
  name : Option String := none
deriving DecidableEq, Repr

/-- Python tx.get("sends", []) or [] . -/
def Tx.sendsD (tx : Tx) : List TokenFlow := tx.sends.getD []

/-- Python tx.get("receives", []) or [] . -/
def Tx.receivesD (tx : Tx) : List TokenFlow := tx.receives.getD []

/-- Python tx.get("tx", \x7b\x7d). -/
def Tx.txMetaD (tx : Tx) : TxMeta := tx.txMeta.getD {}

/-- Python tx.get("time_at", 0). -/
def Tx.timeAtD (tx : Tx) : Nat := tx.timeAt.getD 0

/-- Python tx.get("chain", "unknown"). -/
def Tx.chainD (tx : Tx) : String := tx.chain.getD "unknown"

/-! ## Classification predicates (backend/app/api/v1/build.py) -/

/-- SPAM_INDICATORS from build.py. -/
def spamIndicators : List String :=
  ["claim-", "Visit ", "airdrop", ".org", ".com", ".io"]

/-- BRIDGE_PROJECTS from build.py (a Python set; membership only is used). -/
def bridgeProjects : List String :=
  ["arb_across", "across", "mayan", "arb_socket", "socket",
   "base_socket", "op_socket", "bsc_socket", "eth_socket",
   "stargate", "hop", "multichain", "synapse", "celer",
   "layerzero", "wormhole", "axelar", "debridge",
   "0x", "arb_0x", "base_0x", "op_0x", "eth_0x", "bsc_0x"]

/-- BRIDGE_SWAP_KEYWORDS from build.py. -/
def bridgeSwapKeywords : List String :=
  ["fillRelay", "fulfillWithERC20", "performFulfilment",
   "performExtraction", "refundRequest", "bridge", "relay",
   "swap", "exchange", "fill", "createRequest"]

/-- Embeds build.py _is_spam_transaction: a received token is flagged scam in
the token dict, or its name contains a spam indicator (case-insensitive). -/
def isSpamTransaction (tx : Tx) (tokenDict : List (String × TokenInfo)) : Bool :=
  tx.receivesD.any fun token =>
    let info := (dictGet tokenDict token.tokenId).getD {}
    let tokenName := pyOrOptStr info.name ""
    info.isScam.getD false ||
      spamIndicators.any (fun ind => strContains (strLower tokenName) (strLower ind))

/-- Embeds build.py _is_bridge_or_swap. -/
def isBridgeOrSwap (tx : Tx) : Bool :=
  let projectId := strLower (pyOrOptStr tx.projectId "")
  let txName := strLower (pyOrOptStr tx.txMetaD.name "")
  bridgeProjects.contains projectId ||
    bridgeSwapKeywords.any (fun kw => strContains txName (strLower kw)) ||
    projectId == "0x"

/-- Embeds build.py _is_failed_transaction. -/
def isFailedTransaction (tx : Tx) : Bool :=
  let txInfo := tx.txMetaD
  txInfo.status == some 0 ||
    ["revert", "failed", "error"].contains (strLower (txInfo.name.getD ""))

/-- Effective USD price of a flow as looked up by the build.py and grouping
code: the price_usd stored on the flow when present and not None, otherwise
token_dict.get(token_id, \x7b\x7d).get("price", 0) or 0. -/
def flowPrice (token : TokenFlow) (tokenDict : List (String × TokenInfo)) : ℚ :=
  match token.priceUsd with
  | some p => p
  | none => (((dictGet tokenDict token.tokenId).getD {}).price).getD 0

/-- Embeds build.py _is_dust_transaction: total USD value over receives and
sends is positive yet below the threshold (default 0.10 dollars). -/
def isDustTransaction (tx : Tx) (tokenDict : List (String × TokenInfo))
    (thresholdUsd : ℚ := 1/10) : Bool :=
  let afterReceives := tx.receivesD.foldl
    (fun acc t => acc + t.amount * flowPrice t tokenDict) 0
  let totalValue := tx.sendsD.foldl
    (fun acc t => acc + t.amount * flowPrice t tokenDict) afterReceives
  decide (totalValue > 0) && decide (totalValue < thresholdUsd)

/-- Embeds build.py _is_overhead_transaction: absolute net USD value
(receives minus sends) below the threshold (default 1 dollar). -/
def isOverheadTransaction (tx : Tx) (tokenDict : List (String × TokenInfo))
    (thresholdUsd : ℚ := 1) : Bool :=
  let receivesValue := tx.receivesD.foldl
    (fun acc t => acc + t.amount * flowPrice t tokenDict) 0
  let sendsValue := tx.sendsD.foldl
    (fun acc t => acc + t.amount * flowPrice t tokenDict) 0
  decide (|receivesValue - sendsValue| < thresholdUsd)

/-- Position keywords of build.py _categorize_transaction. -/
def positionKeywords : List String :=
  ["mint", "burn", "increaseLiquidity", "decreaseLiquidity",
   "addLiquidity", "removeLiquidity", "collect",
   "executeOrder", "batch",
   "deposit", "withdraw", "borrow", "repay",
   "stake", "unstake"]

/-- Embeds build.py _categorize_transaction: priority-ordered keyword match. -/
def categorizeTransaction (tx : Tx) : String :=
  let cateId := tx.cateId.getD ""
  let projectId := tx.projectId.getD ""
  let txName := pyOrOptStr tx.txMetaD.name ""
  if positionKeywords.any (fun kw => strContains (strLower txName) (strLower kw)) then
    "position"
  else if ["swap", "exchange", "bridge", "fill"].any
      (fun kw => strContains (strLower txName) (strLower kw)) then
    "trade"
  else if cateId == "approve" then
    "approval"
  else if ["claim", "collect", "harvest", "reward"].any
      (fun kw => strContains (strLower txName) (strLower kw)) then
    "reward"
  else if cateId == "send" || cateId == "receive" then
    "transfer"
  else if strContains (strLower (pyOrStr projectId "")) "gmx" then
    "position"
  else if strContains (strLower (pyOrStr projectId "")) "uniswap" then
    "position"
  else if strContains (strLower (pyOrStr projectId "")) "euler" then
    "position"
  else
    "other"

/-- The removed-count histogram of build.py _filter_transactions. -/
structure HiddenCounts where
  spam : Nat := 0
  dust : Nat := 0
  approval : Nat := 0
  bridgeSwap : Nat := 0
  failed : Nat := 0
  overhead : Nat := 0
deriving DecidableEq, Repr

/-- Sum of the histogram values. -/
def HiddenCounts.total (c : HiddenCounts) : Nat :=
  c.spam + c.dust + c.approval + c.bridgeSwap + c.failed + c.overhead

/-- Embeds build.py _filter_transactions: predicates applied in fixed order
(spam, dust, bridge/swap, failed, overhead, then categorization and the
approval/category filters), short-circuiting on the first hit; survivors are
annotated with their category; removed transactions are counted by reason
(the optional category allow-list removes without counting, as in the code). -/
def filterTransactions (transactions : List Tx) (tokenDict : List (String × TokenInfo))
    (showSpam showDust showApprovals showBridgesSwaps showFailed showOverhead : Bool)
    (overheadThreshold : ℚ) (categories : Option (List String)) :
    List Tx × HiddenCounts :=
  match transactions with
  | [] => ([], {})
  | tx :: rest =>
    let (restF, restC) := filterTransactions rest tokenDict showSpam showDust
      showApprovals showBridgesSwaps showFailed showOverhead overheadThreshold categories
    if !showSpam && isSpamTransaction tx tokenDict then
      (restF, { restC with spam := restC.spam + 1 })
    else if !showDust && isDustTransaction tx tokenDict then
      (restF, { restC with dust := restC.dust + 1 })
    else if !showBridgesSwaps && isBridgeOrSwap tx then
      (restF, { restC with bridgeSwap := restC.bridgeSwap + 1 })
    else if !showFailed && isFailedTransaction tx then
      (restF, { restC with failed := restC.failed + 1 })
    else if !showOverhead && isOverheadTransaction tx tokenDict overheadThreshold then
      (restF, { restC with overhead := restC.overhead + 1 })
    else
      let cat := categorizeTransaction tx
      let tx2 := { tx with category := some cat }
      if !showApprovals && cat == "approval" then
        (restF, { restC with approval := restC.approval + 1 })
      else if pyTruthyOptList categories && !(categories.getD []).contains cat then
        (restF, restC)
      else
        (tx2 :: restF, restC)

/-! ## Grouping engine (backend/app/api/v1/transaction_grouping.py) -/

/-- Embeds _is_nft_token: amount exactly 1, identifier of length at least 20
not starting with 0x. -/
def isNftToken (tokenId : String) (amount : ℚ) : Bool :=
  decide (amount = 1) && decide (tokenId.length ≥ 20) && !(strStartsWith tokenId "0x")

/-- Embeds _extract_nft_id: the first NFT-shaped token among the receives. -/
def extractNftId (tx : Tx) : Option String :=
  (tx.receivesD.find? (fun r => isNftToken r.tokenId r.amount)).map (·.tokenId)

/-- The zero address excluded from pool-address extraction. -/
def zeroAddr : String := "0x0000000000000000000000000000000000000000"

/-- Append an element to a list if not already present (set insertion in
first-insertion order; Python uses a set whose iteration order is
unspecified, the model fixes first-insertion order). -/
def insertDedup (acc : List String) (a : String) : List String :=
  if acc.contains a then acc else acc ++ [a]

/-- Embeds _get_pool_addresses: lower-cased nonzero to_addr of sends and
from_addr of non-NFT receives, deduplicated. -/
def getPoolAddresses (tx : Tx) : List String :=
  let afterSends := tx.sendsD.foldl
    (fun acc s =>
      if s.toAddr != "" && s.toAddr != zeroAddr then insertDedup acc (strLower s.toAddr)
      else acc) []
  tx.receivesD.foldl
    (fun acc r =>
      if isNftToken r.tokenId r.amount then acc
      else if r.fromAddr != "" && r.fromAddr != zeroAddr then
        insertDedup acc (strLower r.fromAddr)
      else acc) afterSends

/-- Embeds _is_lp_protocol. -/
def isLpProtocol (projectId : String) : Bool :=
  if projectId = "" then false
  else
    ["uniswap", "pancake", "sushi", "aero", "velo"].any
      (fun x => strContains (strLower projectId) x)

/-- Embeds infer_flow_direction of transaction_grouping.py; returns
(direction, net_value, total_in, total_out).  NFT-shaped receives are
skipped when summing the inbound value. -/
def inferFlowDirection (tx : Tx) (tokenDict : List (String × TokenInfo)) :
    String × ℚ × ℚ × ℚ :=
  let totalOut := tx.sendsD.foldl
    (fun acc s => acc + s.amount * flowPrice s tokenDict) 0
  let totalIn := tx.receivesD.foldl
    (fun acc r =>
      if isNftToken r.tokenId r.amount then acc
      else acc + r.amount * flowPrice r tokenDict) 0
  let netValue := totalIn - totalOut
  let direction :=
    if |netValue| < 1 then "OVERHEAD"
    else if netValue > 0 then "DECREASE"
    else "INCREASE"
  (direction, netValue, totalIn, totalOut)

/-- Symbol contributed by one flow in get_transaction_tokens, if any. -/
def flowTokenSymbol (f : TokenFlow) (tokenDict : List (String × TokenInfo)) :
    Option String :=
  if isNftToken f.tokenId f.amount then none
  else
    let info := (dictGet tokenDict f.tokenId).getD {}
    let symbol := pyOrStr f.symbol
      (pyOrOptStr info.symbol (pyOrOptStr info.optimizedSymbol ""))
    if symbol != "" && !(info.isScam.getD false) then some (strUpper symbol)
    else if f.tokenId != "" && symbol == "" then
      some (strUpper (String.mk (f.tokenId.toList.take 10)))
    else none

/-- Embeds get_transaction_tokens: symbols of all non-NFT flows, as a sorted
deduplicated list (Python builds a set and returns sorted(list(tokens)),
which is insertion-order independent). -/
def getTransactionTokens (tx : Tx) (tokenDict : List (String × TokenInfo)) :
    List String :=
  let afterSends := tx.sendsD.foldl
    (fun acc s => match flowTokenSymbol s tokenDict with
      | some sym => insertDedup acc sym
      | none => acc) []
  let all := tx.receivesD.foldl
    (fun acc r => match flowTokenSymbol r tokenDict with
      | some sym => insertDedup acc sym
      | none => acc) afterSends
  insertionSortB strLeB all

/-- Embeds infer_position_type. -/
def inferPositionType (tx : Tx) : String :=
  let txName := strLower (pyOrOptStr tx.txMetaD.name "")
  let projectId := strLower (pyOrOptStr tx.projectId "")
  let lpActions := ["addliquidity", "removeliquidity", "mint", "burn",
    "increaseliquidity", "decreaseliquidity", "collect", "multicall"]
  let lpProtocols := ["uniswap", "pancake", "sushi", "curve", "balancer", "aero", "velo"]
  if ["gmx", "gains", "kwenta", "perp"].any (fun x => strContains projectId x) then
    "perpetual"
  else if (lpActions.any (fun x => strContains txName x)) &&
      (lpProtocols.any (fun x => strContains projectId x)) then
    "lp"
  else if lpProtocols.any (fun x => strContains projectId x) then
    "lp"
  else if ["deposit", "withdraw", "supply", "borrow", "repay"].any
      (fun x => strContains txName x) then
    "yield"
  else if ["aave", "compound", "euler", "silo", "morpho"].any
      (fun x => strContains projectId x) then
    "yield"
  else
    "other"

/-- A registry record of the pass-1 NFT position registry. -/
structure NftRecord where
  nftId : String
  tokens : List String
  chain : String
  protocol : String
  mintTime : Nat
deriving DecidableEq, Repr

/-- Append a record to the candidate list of a pool key (defaultdict-of-list
append: an existing key keeps its position, a new key is appended). -/
def registryAppend (reg : List (String × List NftRecord)) (k : String)
    (v : NftRecord) : List (String × List NftRecord) :=
  if (dictGet reg k).isSome then dictModify (fun l => l ++ [v]) reg k
  else reg ++ [(k, [v])]

/-- Embeds pass 1 of group_transactions: scan the transactions of LP-style
protocols whose receives contain an NFT-shaped token and record a mint event
under every pool address the transaction touches. -/
def buildNftRegistry (transactions : List Tx)
    (tokenDict : List (String × TokenInfo)) : List (String × List NftRecord) :=
  transactions.foldl
    (fun reg tx =>
      let projectId := pyOrOptStr tx.projectId ""
      if !isLpProtocol projectId then reg
      else
        match extractNftId tx with
        | none => reg
        | some nftId =>
          if nftId = "" then reg
          else
            let pools := getPoolAddresses tx
            let tokens := getTransactionTokens tx tokenDict
            let record : NftRecord :=
              ⟨nftId, tokens, tx.chainD, projectId, tx.timeAtD⟩
            pools.foldl (fun r pool => registryAppend r pool record) reg)
    []

/-- Token-overlap tie-break among several candidate records of one pool
(the inner best-match loop of pass 2): the candidate with the strictly
largest overlap seen so far, if any overlap is positive. -/
def bestOverlapCandidate (cands : List NftRecord) (tokens : List String) :
    Option NftRecord :=
  (cands.foldl
    (fun (acc : Option NftRecord × Nat) cand =>
      let overlap := (tokens.filter (fun t => cand.tokens.contains t)).length
      if overlap > acc.2 then (some cand, overlap) else acc)
    (none, 0)).1

/-- Embeds the pass-2 registry resolution loop for a non-mint LP transaction:
walk the pool addresses, and at the first pool present in the registry whose
candidates pass the chain+protocol hard filter, pick the single candidate or
tie-break by token overlap (falling back to the first candidate). -/
def lpMatch (registry : List (String × List NftRecord)) (chain projectId : String)
    (tokens : List String) : List String → Option NftRecord
  | [] => none
  | pool :: rest =>
    match dictGet registry pool with
    | none => lpMatch registry chain projectId tokens rest
    | some cands =>
      match cands.filter (fun p => p.chain == chain && p.protocol == projectId) with
      | [] => lpMatch registry chain projectId tokens rest
      | [c] => some c
      | c :: cs => some ((bestOverlapCandidate (c :: cs) tokens).getD c)

/-- Group key, display-token string and resolved NFT id computed for one
transaction in pass 2 of group_transactions. -/
def computeGroupKey (registry : List (String × List NftRecord))
    (tokenDict : List (String × TokenInfo)) (tx : Tx) :
    String × String × Option String :=
  let chain := tx.chainD
  let projectId := pyOrOptStr tx.projectId "unknown"
  let posType := inferPositionType tx
  let tokens := getTransactionTokens tx tokenDict
  let tokensStr := if tokens.isEmpty then "Unknown" else String.intercalate "/" tokens
  if posType == "lp" && isLpProtocol projectId then
    let pools := getPoolAddresses tx
    let txNftId := extractNftId tx
    if pyTruthyOptStr txNftId then
      let nftId := txNftId.getD ""
      (chain ++ "|" ++ projectId ++ "|lp|nft:" ++ nftId, tokensStr, some nftId)
    else
      match lpMatch registry chain projectId tokens pools with
      | some p =>
        let display := if p.tokens.isEmpty then tokensStr
          else String.intercalate "/" p.tokens
        (chain ++ "|" ++ projectId ++ "|lp|nft:" ++ p.nftId, display, some p.nftId)
      | none =>
        let pool := pools.headD "unknown"
        (chain ++ "|" ++ projectId ++ "|lp|pool:" ++ pool, tokensStr, none)
  else if posType == "perpetual" then
    (chain ++ "|" ++ projectId ++ "|perpetual|" ++ tokensStr, tokensStr, none)
  else
    (chain ++ "|" ++ projectId ++ "|" ++ posType ++ "|" ++ tokensStr, tokensStr, none)

/-- A transaction annotated with its flow fields and resolved NFT id
(the tx_with_flow dict of pass 2). -/
structure AnnTx where
  base : Tx
  flowDirection : String
  netValue : ℚ
  totalIn : ℚ
  totalOut : ℚ
  nftId : Option String
deriving DecidableEq, Repr

/-- The annotation pass 2 attaches to one transaction. -/
def annotateTx (registry : List (String × List NftRecord))
    (tokenDict : List (String × TokenInfo)) (tx : Tx) : AnnTx :=
  let flow := inferFlowDirection tx tokenDict
  ⟨tx, flow.1, flow.2.1, flow.2.2.1, flow.2.2.2, (computeGroupKey registry tokenDict tx).2.2⟩

/-- A position group under construction and as returned (transactionCount and
netValue are filled in by the final pass, as in the code). -/
structure PositionGroup where
  groupKey : String
  chain : String
  protocol : String
  protocolName : String
  positionType : String
  tokens : List String
  tokensDisplay : String
  nftId : Option String
  transactions : List AnnTx
  totalIn : ℚ
  totalOut : ℚ
  latestActivity : Nat
  transactionCount : Nat := 0
  netValue : ℚ := 0
deriving DecidableEq, Repr

/-- Accumulation of one annotated transaction into its group: append it,
add its totals, refresh the token display when it is better, and advance the
latest-activity timestamp. -/
def applyTxToGroup (ann : AnnTx) (tokens : List String) (tokensStr : String)
    (t : Nat) (g : PositionGroup) : PositionGroup :=
  let g1 := { g with transactions := g.transactions ++ [ann],
                     totalIn := g.totalIn + ann.totalIn,
                     totalOut := g.totalOut + ann.totalOut }
  let g2 :=
    if !tokens.isEmpty && (g1.tokensDisplay == "Unknown" || g1.tokensDisplay == "") then
      { g1 with tokensDisplay := tokensStr, tokens := tokens }
    else g1
  if t > g2.latestActivity then { g2 with latestActivity := t } else g2

/-- Pass-2 body for one transaction: create the group on first sight, append
the annotated transaction, accumulate totals, refresh the token display and
the latest-activity timestamp. -/
def groupStep (registry : List (String × List NftRecord))
    (tokenDict : List (String × TokenInfo)) (projectDict : List (String × ProjInfo))
    (groups : List (String × PositionGroup)) (tx : Tx) :
    List (String × PositionGroup) :=
  let chain := tx.chainD
  let projectId := pyOrOptStr tx.projectId "unknown"
  let posType := inferPositionType tx
  let protocolName := pyOrOptStr ((dictGet projectDict projectId).getD {}).name
    (titleCase (strReplace projectId "_" " "))
  let tokens := getTransactionTokens tx tokenDict
  let tokensStr := if tokens.isEmpty then "Unknown" else String.intercalate "/" tokens
  let gk := computeGroupKey registry tokenDict tx
  let ann := annotateTx registry tokenDict tx
  let groups1 :=
    if (dictGet groups gk.1).isSome then groups
    else groups ++ [(gk.1,
      { groupKey := gk.1, chain := chain, protocol := projectId,
        protocolName := protocolName, positionType := posType, tokens := tokens,
        tokensDisplay := gk.2.1, nftId := gk.2.2, transactions := [],
        totalIn := 0, totalOut := 0, latestActivity := 0 })]
  dictModify (applyTxToGroup ann tokens tokensStr tx.timeAtD) groups1 gk.1

/-- Embeds group_transactions: pass 1 builds the NFT registry, pass 2 folds
every transaction into its group, then groups are sorted by latest activity
descending, transactions within each group by time descending, and
transactionCount and netValue are filled in. -/
def groupTransactions (transactions : List Tx)
    (tokenDict : List (String × TokenInfo)) (projectDict : List (String × ProjInfo)) :
    List PositionGroup :=
  let registry := buildNftRegistry transactions tokenDict
  let groups := transactions.foldl (groupStep registry tokenDict projectDict) []
  let result := insertionSortB
    (fun a b : PositionGroup => decide (b.latestActivity ≤ a.latestActivity))
    (groups.map (·.2))
  result.map (fun g =>
    let sortedTx := insertionSortB
      (fun a b : AnnTx => decide (b.base.timeAtD ≤ a.base.timeAtD))
      g.transactions
    { g with transactions := sortedTx,
             transactionCount := sortedTx.length,
             netValue := g.totalIn - g.totalOut })

/-! ## Transaction cache (backend/services/transaction_cache.py)

The per-wallet SQLite store is embedded as lists of typed rows, one list per
table.  INSERT OR REPLACE is modelled as SQLite executes it on a rowid table:
the conflicting row is deleted and the new row inserted. -/

/-- A row of the transactions table. -/
structure TxRow where
  txId : String
  chain : String
  timeAt : Nat
  data : Tx
deriving DecidableEq, Repr

/-- A row of the transaction_prices table. -/
structure PriceRow where
  txId : String
  tokenAddress : String
  priceUsd : Option ℚ
  valueUsd : Option ℚ
deriving DecidableEq, Repr

/-- A JSON value stored in the metadata table (the three keys the discovery
engine writes). -/
inductive MetaVal where
  | tokDict (d : List (String × TokenInfo))
  | projDict (d : List (String × ProjInfo))
  | chainNames (d : List (String × String))
deriving DecidableEq, Repr

/-- A row of the strategies table. -/
structure StrategyRow where
  id : String
  name : String
  description : Option String
  status : String
deriving DecidableEq, Repr

/-- A row of the strategy_positions table. -/
structure StrategyPositionRow where
  strategyId : String
  positionId : String
  percentage : ℚ
deriving DecidableEq, Repr

/-- A row of the position_customizations table. -/
structure PositionCustomizationRow where
  positionId : String
  customName : Option String
  notes : Option String
  hidden : Bool
deriving DecidableEq, Repr

/-- A row of the user_positions table. -/
structure UserPositionRow where
  id : String
  name : String
  description : Option String
  chain : Option String
  protocol : Option String
  positionType : Option String
  status : String
deriving DecidableEq, Repr

/-- A row of the position_transactions table. -/
structure PositionTransactionRow where
  positionId : String
  transactionId : String
deriving DecidableEq, Repr

/-- The per-wallet SQLite database (all eight tables of _init_db). -/
structure Store where
  transactions : List TxRow := []
  transactionPrices : List PriceRow := []
  metadata : List (String × MetaVal) := []
  strategies : List StrategyRow := []
  strategyPositions : List StrategyPositionRow := []
  positionCustomizations : List PositionCustomizationRow := []
  userPositions : List UserPositionRow := []
  positionTransactions : List PositionTransactionRow := []
deriving DecidableEq, Repr

/-- Primary key used by save_transactions:
tx.get("id", tx.get("tx", \x7b\x7d).get("hash", "")). -/
def txRowKey (tx : Tx) : String :=
  tx.id.getD (tx.txMetaD.hash.getD "")

/-- The row save_transactions inserts for one transaction. -/
def mkTxRow (tx : Tx) : TxRow :=
  ⟨txRowKey tx, tx.chainD, tx.timeAtD, tx⟩

/-- INSERT OR REPLACE of one row into the transactions table: the row with a
conflicting primary key is deleted, the new row inserted. -/
def upsertTxRow (rows : List TxRow) (tx : Tx) : List TxRow :=
  rows.filter (fun r => r.txId != txRowKey tx) ++ [mkTxRow tx]

/-- Embeds save_transactions: batched idempotent upsert keyed by the
transaction id (a no-op on the empty batch, as in the code). -/
def saveTransactions (s : Store) (txs : List Tx) : Store :=
  if txs.isEmpty then s
  else { s with transactions := txs.foldl upsertTxRow s.transactions }

/-- Embeds get_transaction_count (SELECT COUNT from transactions). -/
def getTransactionCount (s : Store) : Nat :=
  s.transactions.length

/-- Embeds get_latest_timestamp: MAX(time_at), with the Python truthiness
collapse of both the empty table (NULL) and a zero maximum to None. -/
def getLatestTimestamp (s : Store) : Option Nat :=
  let m := s.transactions.foldl (fun a r => max a r.timeAt) 0
  if m = 0 then none else some m

/-- Embeds get_oldest_timestamp, with the same truthiness collapse. -/
def getOldestTimestamp (s : Store) : Option Nat :=
  match s.transactions.map (·.timeAt) with
  | [] => none
  | t :: ts =>
    let m := ts.foldl min t
    if m = 0 then none else some m

/-- Embeds load_transactions: optional inclusive time bounds and chain
equality (each filter applied only when the argument is truthy), rows ordered
by time_at descending. -/
def loadTransactions (s : Store) (sinceTs untilTs : Option Nat)
    (chain : Option String) : List Tx :=
  let keep := fun (r : TxRow) =>
    (if pyTruthyNat sinceTs then decide (sinceTs.getD 0 ≤ r.timeAt) else true) &&
    (if pyTruthyNat untilTs then decide (r.timeAt ≤ untilTs.getD 0) else true) &&
    (if pyTruthyOptStr chain then r.chain == chain.getD "" else true)
  (insertionSortB (fun a b => decide (b.timeAt ≤ a.timeAt))
    (s.transactions.filter keep)).map (·.data)

/-- Embeds save_metadata (INSERT OR REPLACE on the metadata key). -/
def saveMetadata (s : Store) (k : String) (v : MetaVal) : Store :=
  { s with metadata := dictSet s.metadata k v }

/-- Embeds load_metadata. -/
def loadMetadata (s : Store) (k : String) : Option MetaVal :=
  dictGet s.metadata k

/-- Embeds clear_cache: DELETE FROM transactions, transaction_prices and
metadata; no other table is touched. -/
def clearCache (s : Store) : Store :=
  { s with transactions := [], transactionPrices := [], metadata := [] }

/-! ## Discovery engine (backend/services/discovery.py)

The upstream all_history_list endpoint is modelled as a function from the
page index to the page outcome (the mocked-source view of section 8 of the
spec): the loop issues strictly sequential page requests, and the cursor
start_time it would send upstream is threaded through the state. -/

/-- The payload of one successful history page. -/
structure PageData where
  tokenDict : List (String × TokenInfo) := []
  projectDict : List (String × ProjInfo) := []
  cateDict : List (String × String) := []
  historyList : List Tx := []
deriving Repr

/-- Outcome of one page fetch: a raised exception or a decoded payload. -/
inductive PageResult where
  | err
  | ok (d : PageData)
deriving Repr

/-- Accumulated result of _fetch_all_history. -/
structure FetchResult where
  transactions : List Tx := []
  tokenDict : List (String × TokenInfo) := []
  projectDict : List (String × ProjInfo) := []
deriving DecidableEq, Repr

/-- The cate_name annotation of the page-processing loop: set when cate_id is
truthy and present in the cate_dict of the page. -/
def annotateCate (cateDict : List (String × String)) (tx : Tx) : Tx :=
  if pyTruthyOptStr tx.cateId && (dictGet cateDict (tx.cateId.getD "")).isSome then
    { tx with cateName := dictGet cateDict (tx.cateId.getD "") }
  else tx

/-- Per-page transaction scan of _fetch_all_history: stop and return the
accumulator (Sum.inl) at the first record older than the since bound;
otherwise skip scam records and append the annotated record.  Sum.inr means
the page was processed to the end. -/
def processHistory (sinceTs : Option Nat) (cateDict : List (String × String)) :
    List Tx → List Tx → List Tx ⊕ List Tx
  | [], acc => .inr acc
  | t :: rest, acc =>
    if pyTruthyNat sinceTs && decide (t.timeAtD < sinceTs.getD 0) then .inl acc
    else if t.isScam.getD false then processHistory sinceTs cateDict rest acc
    else processHistory sinceTs cateDict rest (acc ++ [annotateCate cateDict t])

/-- Pagination loop of _fetch_all_history over a page source, with the fuel
max_pages, the current page index, and the backwards cursor start_time.
Returns the accumulated result together with the number of page fetches
performed (source invocations). -/
def fetchPages (source : Nat → PageResult) (sinceTs : Option Nat) (pageCount : Nat) :
    Nat → Nat → Option Nat → List Tx → List (String × TokenInfo) →
    List (String × ProjInfo) → FetchResult × Nat
  | 0, _, _, accTx, accTok, accProj => (⟨accTx, accTok, accProj⟩, 0)
  | fuel + 1, pageIdx, startTime, accTx, accTok, accProj =>
    match source pageIdx with
    | .err => (⟨accTx, accTok, accProj⟩, 1)
    | .ok d =>
      let tok := dictUpdate accTok d.tokenDict
      let proj := dictUpdate accProj d.projectDict
      if h : d.historyList.isEmpty then (⟨accTx, tok, proj⟩, 1)
      else
        match processHistory sinceTs d.cateDict d.historyList accTx with
        | .inl accEarly => (⟨accEarly, tok, proj⟩, 1)
        | .inr acc2 =>
          let oldest := (d.historyList.getLast (by
            simpa [List.isEmpty_iff] using h)).timeAt
          let startTime2 := if pyTruthyNat oldest then oldest else startTime
          if d.historyList.length < pageCount then (⟨acc2, tok, proj⟩, 1)
          else
            let r := fetchPages source sinceTs pageCount fuel (pageIdx + 1)
              startTime2 acc2 tok proj
            (r.1, r.2 + 1)

/-- Embeds _fetch_all_history: paginate from until_ts backwards for at most
max_pages pages.  The chains argument only shapes the upstream request
parameters and is omitted from the mocked-source model. -/
def fetchAllHistory (source : Nat → PageResult) (sinceTs untilTs : Option Nat)
    (pageCount maxPages : Nat) : FetchResult × Nat :=
  fetchPages source sinceTs pageCount maxPages 0 untilTs [] [] []

/-- Increment a counter key of a count dictionary. -/
def countIncr (d : List (String × Nat)) (k : String) : List (String × Nat) :=
  dictSet d k ((dictGet d k).getD 0 + 1)

/-- Summary statistics of _build_summary. -/
structure DiscoverSummary where
  total : Nat
  byChain : List (String × Nat)
  byProject : List (String × Nat)
  byCategory : List (String × Nat)
deriving DecidableEq, Repr

/-- Embeds _build_summary. -/
def buildSummary (transactions : List Tx) : DiscoverSummary :=
  let step := fun (s : DiscoverSummary) (tx : Tx) =>
    { s with
      byChain := countIncr s.byChain tx.chainD,
      byProject := countIncr s.byProject (pyOrOptStr tx.projectId "other"),
      byCategory := countIncr s.byCategory
        (pyOrOptStr tx.cateId (tx.txMetaD.name.getD "unknown")) }
  transactions.foldl step ⟨transactions.length, [], [], []⟩

/-- The dict discover_transactions returns.  The oldest_date and newest_date
fields of the cache block are ISO-formatted renderings of the oldest and
newest cached timestamps; the model keeps the timestamps themselves (the
formatting is injective, so equality is preserved). -/
structure DiscoverResponse where
  transactions : List Tx
  tokenDict : List (String × TokenInfo)
  projectDict : List (String × ProjInfo)
  chainsQueried : List String
  chainsWithData : List String
  chainNames : List (String × String)
  summary : DiscoverSummary
  cacheStatus : String
  newTransactions : Nat
  totalCached : Nat
  oldestTs : Option Nat
  newestTs : Option Nat
deriving DecidableEq, Repr

/-- Metadata value read back as a token dict (load_metadata("token_dict") or
an empty dict). -/
def metaTokDict (v : Option MetaVal) : List (String × TokenInfo) :=
  match v with
  | some (.tokDict d) => d
  | _ => []

/-- Metadata value read back as a project dict. -/
def metaProjDict (v : Option MetaVal) : List (String × ProjInfo) :=
  match v with
  | some (.projDict d) => d
  | _ => []

/-- Embeds discover_transactions: force-refresh clears the cache; a warm
cache triggers an incremental sync from the newest cached timestamp and the
answer is served from the merged cache; otherwise a full fetch is cached and
returned directly; finally a multi-chain request filters by chain and the
summary and cache statistics are attached.  The used-chain lookup and the
wallet identity are collaborator inputs. -/
def discoverTransactions (store : Store) (source : Nat → PageResult)
    (usedChainIds : List String) (chainNames : List (String × String))
    (chains : Option (List String)) (sinceTs untilTs : Option Nat)
    (pageCount maxPages : Nat) (forceRefresh : Bool) :
    Store × DiscoverResponse :=
  let store1 := if forceRefresh then clearCache store else store
  let chainsToQuery := if pyTruthyOptList chains then chains.getD [] else usedChainIds
  let cachedCount := getTransactionCount store1
  let latestCachedTs := getLatestTimestamp store1
  let incremental := cachedCount > 0 && pyTruthyNat latestCachedTs && !forceRefresh
  let branch :=
    if incremental then
      let newResult := (fetchAllHistory source latestCachedTs untilTs pageCount maxPages).1
      let store2 :=
        if newResult.transactions.isEmpty then store1
        else
          let s := saveTransactions store1 newResult.transactions
          let s := saveMetadata s "token_dict" (.tokDict newResult.tokenDict)
          saveMetadata s "project_dict" (.projDict newResult.projectDict)
      let singleChain := match chains with
        | some [c] => some c
        | _ => none
      let allTx := loadTransactions store2 sinceTs untilTs singleChain
      let tokenDict := dictUpdate (metaTokDict (loadMetadata store2 "token_dict"))
        newResult.tokenDict
      let projectDict := dictUpdate (metaProjDict (loadMetadata store2 "project_dict"))
        newResult.projectDict
      (store2, allTx, tokenDict, projectDict, "incremental_sync",
        newResult.transactions.length)
    else
      let result := (fetchAllHistory source sinceTs untilTs pageCount maxPages).1
      let s := saveTransactions store1 result.transactions
      let s := saveMetadata s "token_dict" (.tokDict result.tokenDict)
      let s := saveMetadata s "project_dict" (.projDict result.projectDict)
      let s := saveMetadata s "chain_names" (.chainNames chainNames)
      (s, result.transactions, result.tokenDict, result.projectDict, "full_fetch",
        result.transactions.length)
  let store2 := branch.1
  let allTx := branch.2.1
  let filteredTx := match chains with
    | some l =>
      if l.length > 1 then
        allTx.filter (fun tx => match tx.chain with
          | some c => l.contains c
          | none => false)
      else allTx
    | none => allTx
  let summary := buildSummary filteredTx
  (store2,
    { transactions := filteredTx,
      tokenDict := branch.2.2.1,
      projectDict := branch.2.2.2.1,
      chainsQueried := chainsToQuery,
      chainsWithData := (buildSummary filteredTx).byChain.map (·.1),
      chainNames := chainNames,
      summary := summary,
      cacheStatus := branch.2.2.2.2.1,
      newTransactions := branch.2.2.2.2.2,
      totalCached := getTransactionCount store2,
      oldestTs := getOldestTimestamp store2,
      newestTs := getLatestTimestamp store2 })

/-! ## Resilience retry wrapper (backend/core/retry.py)

retry_on_5xx builds a tenacity retry decorator with
retry_if_not_exception_type((httpx.HTTPStatusError,)), stop_after_attempt(3),
exponential wait and reraise=True.  The wrapped call is modelled as a
function from the attempt index to its outcome; the wait times are real-time
behavior outside the embedding. -/

/-- Outcome of one attempt of the wrapped upstream call.
httpStatusError carries the HTTP status code of the response
(raise_for_status raises httpx.HTTPStatusError for every 4xx and 5xx). -/
inductive CallOutcome where
  | success
  | httpStatusError (status : Nat)
  | networkError
deriving DecidableEq, Repr

/-- Tenacity loop of the retry_on_5xx decorator: retry while the raised
exception is not an httpx.HTTPStatusError (retry_if_not_exception_type),
stop after 3 attempts, re-raise the last outcome (reraise=True).  Returns the
final outcome and the number of attempts performed. -/
def retryGo (call : Nat → CallOutcome) : Nat → Nat → CallOutcome × Nat
  | 0, i => (call i, i + 1)
  | remaining + 1, i =>
    match call i with
    | .success => (.success, i + 1)
    | .httpStatusError s => (.httpStatusError s, i + 1)
    | .networkError => retryGo call remaining (i + 1)

/-- Embeds a call wrapped by retry_on_5xx (attempt cap 3). -/
def retryOn5xx (call : Nat → CallOutcome) : CallOutcome × Nat :=
  retryGo call 2 0

/-! ## Auxiliary predicates and concrete inputs used by the statements -/

/-- Every flow of the transaction has effective price 0 under the lookup the
dust/overhead predicates perform (no flow has a known price). -/
def allFlowsUnpriced (tx : Tx) (tokenDict : List (String × TokenInfo)) : Bool :=
  (tx.receivesD ++ tx.sendsD).all (fun t => decide (flowPrice t tokenDict = 0))

/-- No record of the page is strictly older than the since bound
(a failed page counts vacuously). -/
def pageNotOlder (s : Nat) : PageResult → Bool
  | .err => true
  | .ok d => d.historyList.all (fun t => !decide (t.timeAtD < s))

/-- Some record of the page is strictly older than the since bound. -/
def pageHasOlder (s : Nat) : PageResult → Bool
  | .err => false
  | .ok d => d.historyList.any (fun t => decide (t.timeAtD < s))

/-- Replace one page of a source by a clean empty page (end of history). -/
def replacePage (source : Nat → PageResult) (k : Nat) : Nat → PageResult :=
  fun i => if i = k then .ok {} else source i

/-- A minimal transaction with the given id suffix and timestamp. -/
def simpleTx (i : String) (t : Nat) : Tx :=
  { id := some ("tx" ++ i), chain := some "eth", timeAt := some t }

/-- Example transaction with a single receive flow of an unpriced token
(no price_usd on the flow, token absent from the token dict). -/
def unpricedTx : Tx :=
  { id := some "txunpriced",
    receives := some [{ tokenId := "0xdead", amount := 5 }] }

/-- Example mint transaction receiving NFT 11111111111111111111 and paying
token AAA into pool 0xPOOL on eth / eth_uniswap3. -/
def mintTxA : Tx :=
  { id := some "mintA", chain := some "eth", timeAt := some 100,
    projectId := some "eth_uniswap3",
    txMeta := some { name := some "mint" },
    sends := some [{ tokenId := "0xaaa1", amount := 2, toAddr := "0xPOOL",
                     symbol := "AAA" }],
    receives := some [{ tokenId := "11111111111111111111", amount := 1 }] }

/-- Example second mint on the same pool receiving NFT 22222222222222222222
and paying token BBB. -/
def mintTxB : Tx :=
  { id := some "mintB", chain := some "eth", timeAt := some 200,
    projectId := some "eth_uniswap3",
    txMeta := some { name := some "mint" },
    sends := some [{ tokenId := "0xbbb1", amount := 2, toAddr := "0xPOOL",
                     symbol := "BBB" }],
    receives := some [{ tokenId := "22222222222222222222", amount := 1 }] }

/-- Example non-mint LP transaction on the same pool, chain and protocol,
receiving token BBB from the pool. -/
def collectTx : Tx :=
  { id := some "collect1", chain := some "eth", timeAt := some 300,
    projectId := some "eth_uniswap3",
    txMeta := some { name := some "collect" },
    receives := some [{ tokenId := "0xbbb1", amount := 3, fromAddr := "0xPOOL",
                        symbol := "BBB" }] }

/-- Page source that serves one full page and then raises on page 1. -/
def srcFailPage1 : Nat → PageResult :=
  fun i => if i = 0 then .ok { historyList := [simpleTx "a" 100] } else .err

/-- Page source identical to srcFailPage1 on page 0, but ending history
cleanly with empty pages from page 1 on (a source that never fails). -/
def srcEndPage1 : Nat → PageResult :=
  fun i => if i = 0 then .ok { historyList := [simpleTx "a" 100] } else .ok {}

/-- Page source for the pagination-termination witness: one page newer than
the since bound 60, then a page strictly older. -/
def srcTwoPages : Nat → PageResult :=
  fun i => if i = 0 then .ok { historyList := [simpleTx "a" 100] }
    else .ok { historyList := [simpleTx "b" 50] }

/-- Example populated store used by witnesses. -/
def storeEx : Store :=
  { transactions := [mkTxRow (simpleTx "a" 5)],
    strategies := [{ id := "s1", name := "n", description := none, status := "draft" }] }

/-- Invariant of a group under construction in pass 2: totals are the sums
of the member annotations, every member carries the flow annotation of
infer_flow_direction, the member list is nonempty, and latestActivity is the
running maximum of the member timestamps. -/
def groupInvP (td : List (String × TokenInfo)) (g : PositionGroup) : Prop :=
  g.totalIn = (g.transactions.map AnnTx.totalIn).sum ∧
  g.totalOut = (g.transactions.map AnnTx.totalOut).sum ∧
  (∀ m ∈ g.transactions,
    m.flowDirection = (inferFlowDirection m.base td).1 ∧
    m.netValue = (inferFlowDirection m.base td).2.1 ∧
    m.totalIn = (inferFlowDirection m.base td).2.2.1 ∧
    m.totalOut = (inferFlowDirection m.base td).2.2.2) ∧
  g.transactions ≠ [] ∧
  g.latestActivity = (g.transactions.map (fun m => m.base.timeAtD)).foldl max 0

/-! ## Theorems -/

/-- Summing the per-flow USD values adds nothing when every flow has
effective price 0. -/
theorem foldl_value_of_unpriced (tokenDict : List (String × TokenInfo))
    (l : List TokenFlow) (a : ℚ) (h : ∀ t ∈ l, flowPrice t tokenDict = 0) :
    l.foldl (fun acc t => acc + t.amount * flowPrice t tokenDict) a = a := by
  induction l generalizing a with
  | nil => rfl
  | cons t ts ih =>
    rw [List.foldl_cons, h t (by simp)]
    rw [mul_zero, add_zero]
    exact ih a (fun x hx => h x (by simp [hx]))

/-- C10: clear_cache empties exactly the transactions, transaction_prices and
metadata tables: afterwards the count is 0, every query returns the empty
list and every metadata key reads back None, while the strategies,
strategy_positions, user_positions, position_customizations and
position_transactions tables are left unchanged. -/
theorem clearCache_only_clears_cache_tables (s : Store) (a b : Option Nat)
    (c : Option String) (k : String) :
    getTransactionCount (clearCache s) = 0 ∧
    loadTransactions (clearCache s) a b c = [] ∧
    loadMetadata (clearCache s) k = none ∧
    (clearCache s).strategies = s.strategies ∧
    (clearCache s).strategyPositions = s.strategyPositions ∧
    (clearCache s).userPositions = s.userPositions ∧
    (clearCache s).positionCustomizations = s.positionCustomizations ∧
    (clearCache s).positionTransactions = s.positionTransactions :=
  ⟨rfl, rfl, rfl, rfl, rfl, rfl, rfl, rfl⟩

/-- C10 witness: the guarantees of clearCache_only_clears_cache_tables at a
concrete populated store. -/
theorem clearCache_only_clears_cache_tables_witness :
    getTransactionCount (clearCache storeEx) = 0 ∧
    (clearCache storeEx).strategies = storeEx.strategies := by
  have h := clearCache_only_clears_cache_tables storeEx none none none "token_dict"
  exact ⟨h.1, h.2.2.2.1⟩

/-- C7: evaluation of the retry_on_5xx wrapper.  A call failing with an HTTP
500 status error is given a single attempt and not retried, while the claim
(and the name and comment of retry_on_5xx) demand retrying 5xx-class
failures up to the attempt cap of 3; a network failure is retried to the cap
and a 4xx status error is not retried. -/
theorem retryOn5xx_at_failing_inputs :
    retryOn5xx (fun _ => CallOutcome.httpStatusError 500) =
      (CallOutcome.httpStatusError 500, 1) ∧
    retryOn5xx (fun _ => CallOutcome.networkError) = (CallOutcome.networkError, 3) ∧
    retryOn5xx (fun _ => CallOutcome.httpStatusError 404) =
      (CallOutcome.httpStatusError 404, 1) :=
  ⟨rfl, rfl, rfl⟩

/-- C4 counterexample: a transaction with one receive flow of an unpriced
token.  No flow has a known price, and is_dust is indeed false, but the
transaction IS classified as overhead (the code substitutes 0 for the
missing price, so the absolute net value is 0, below the threshold),
contradicting the claim that it is likewise not classified as overhead. -/
theorem unpriced_tx_is_overhead_cex :
    allFlowsUnpriced unpricedTx [] = true ∧
    isDustTransaction unpricedTx [] = false ∧
    isOverheadTransaction unpricedTx [] = true := by
  refine ⟨by decide, ?_, ?_⟩
  · simp [isDustTransaction, flowPrice, Tx.receivesD, Tx.sendsD, unpricedTx, dictGet]
  · simp [isOverheadTransaction, flowPrice, Tx.receivesD, Tx.sendsD, unpricedTx, dictGet]

/-- C4 (amended): a transaction none of whose flows has a known price has
known-price total 0, so is_dust returns false for every threshold; but the
same transaction is always classified as overhead for any positive
threshold, because the missing prices are treated as zero and the absolute
net value is 0. -/
theorem unpriced_not_dust_but_overhead (tx : Tx)
    (tokenDict : List (String × TokenInfo)) (dustThreshold overheadThreshold : ℚ)
    (h : allFlowsUnpriced tx tokenDict = true) (hpos : 0 < overheadThreshold) :
    isDustTransaction tx tokenDict dustThreshold = false ∧
    isOverheadTransaction tx tokenDict overheadThreshold = true := by
  have hall : ∀ t ∈ tx.receivesD ++ tx.sendsD, flowPrice t tokenDict = 0 := by
    intro t ht
    have := (List.all_eq_true.mp h) t ht
    exact of_decide_eq_true this
  have hrec : ∀ t ∈ tx.receivesD, flowPrice t tokenDict = 0 :=
    fun t ht => hall t (List.mem_append_left _ ht)
  have hsnd : ∀ t ∈ tx.sendsD, flowPrice t tokenDict = 0 :=
    fun t ht => hall t (List.mem_append_right _ ht)
  have h1 : tx.receivesD.foldl
      (fun acc t => acc + t.amount * flowPrice t tokenDict) 0 = 0 :=
    foldl_value_of_unpriced _ _ _ hrec
  have h2 : tx.sendsD.foldl
      (fun acc t => acc + t.amount * flowPrice t tokenDict) 0 = 0 :=
    foldl_value_of_unpriced _ _ _ hsnd
  constructor
  · simp [isDustTransaction, h1, h2]
  · simp [isOverheadTransaction, h1, h2, hpos]

/-- C4 witness: unpriced_not_dust_but_overhead applied to the concrete
unpriced transaction at the default thresholds. -/
theorem unpriced_not_dust_but_overhead_witness :
    isDustTransaction unpricedTx [] (1/10) = false ∧
    isOverheadTransaction unpricedTx [] 1 = true :=
  unpriced_not_dust_but_overhead unpricedTx [] (1/10) 1 (by decide) (by norm_num)

/-- The category annotation the filter writes does not change the spam test. -/
theorem isSpam_annot (tx : Tx) (d : List (String × TokenInfo)) (c : String) :
    isSpamTransaction { tx with category := some c } d = isSpamTransaction tx d := rfl

/-- The category annotation does not change the dust test. -/
theorem isDust_annot (tx : Tx) (d : List (String × TokenInfo)) (c : String) (θ : ℚ) :
    isDustTransaction { tx with category := some c } d θ = isDustTransaction tx d θ := rfl

/-- The category annotation does not change the bridge/swap test. -/
theorem isBridge_annot (tx : Tx) (c : String) :
    isBridgeOrSwap { tx with category := some c } = isBridgeOrSwap tx := rfl

/-- The category annotation does not change the failed test. -/
theorem isFailed_annot (tx : Tx) (c : String) :
    isFailedTransaction { tx with category := some c } = isFailedTransaction tx := rfl

/-- The category annotation does not change the overhead test. -/
theorem isOverhead_annot (tx : Tx) (d : List (String × TokenInfo)) (c : String) (θ : ℚ) :
    isOverheadTransaction { tx with category := some c } d θ =
      isOverheadTransaction tx d θ := rfl

/-- One step of the filter with all show flags false and no category
allow-list: the head transaction is either removed with its reason counted
once, or survives annotated, in which case none of the five predicates holds
for it. -/
theorem filterTransactions_cons_cases (tx : Tx) (rest : List Tx)
    (d : List (String × TokenInfo)) (θ : ℚ) :
    (∃ C : HiddenCounts,
      filterTransactions (tx :: rest) d false false false false false false θ none =
        ((filterTransactions rest d false false false false false false θ none).1, C) ∧
      C.total =
        (filterTransactions rest d false false false false false false θ none).2.total + 1) ∨
    (filterTransactions (tx :: rest) d false false false false false false θ none =
      ({ tx with category := some (categorizeTransaction tx) } ::
        (filterTransactions rest d false false false false false false θ none).1,
        (filterTransactions rest d false false false false false false θ none).2) ∧
      isSpamTransaction tx d = false ∧ isDustTransaction tx d = false ∧
      isBridgeOrSwap tx = false ∧ isFailedTransaction tx = false ∧
      isOverheadTransaction tx d θ = false) := by
  rcases hrec : filterTransactions rest d false false false false false false θ none
    with ⟨restF, restC⟩
  simp only [filterTransactions, hrec, Bool.not_false, Bool.true_and]
  split_ifs with h1 h2 h3 h4 h5 h6 h7
  · exact Or.inl ⟨_, rfl, by simp [HiddenCounts.total]; omega⟩
  · exact Or.inl ⟨_, rfl, by simp [HiddenCounts.total]; omega⟩
  · exact Or.inl ⟨_, rfl, by simp [HiddenCounts.total]; omega⟩
  · exact Or.inl ⟨_, rfl, by simp [HiddenCounts.total]; omega⟩
  · exact Or.inl ⟨_, rfl, by simp [HiddenCounts.total]; omega⟩
  · exact Or.inl ⟨_, rfl, by simp [HiddenCounts.total]; omega⟩
  · simp [pyTruthyOptList] at h7
  · exact Or.inr ⟨rfl, by simpa using h1, by simpa using h2, by simpa using h3,
      by simpa using h4, by simpa using h5⟩

/-- C1: with every show flag false (and no category allow-list), no survivor
of the filter pipeline satisfies is_spam, is_dust, is_bridge_or_swap,
is_failed or is_overhead, and the removed-count histogram sums exactly to
the input length minus the output length. -/
theorem filter_pipeline_complete (txs : List Tx)
    (tokenDict : List (String × TokenInfo)) (θ : ℚ) :
    ((filterTransactions txs tokenDict false false false false false false θ none).1.all
      (fun t => !isSpamTransaction t tokenDict && !isDustTransaction t tokenDict &&
        !isBridgeOrSwap t && !isFailedTransaction t &&
        !isOverheadTransaction t tokenDict θ)) = true ∧
    (filterTransactions txs tokenDict false false false false false false θ none).2.total +
      (filterTransactions txs tokenDict false false false false false false θ none).1.length =
      txs.length ∧
    (filterTransactions txs tokenDict false false false false false false θ none).2.total =
      txs.length -
      (filterTransactions txs tokenDict false false false false false false θ none).1.length := by
  induction txs with
  | nil => exact ⟨rfl, rfl, rfl⟩
  | cons tx rest ih =>
    obtain ⟨ihAll, ihSum, ihSub⟩ := ih
    rcases filterTransactions_cons_cases tx rest tokenDict θ with
      ⟨C, hEq, hTot⟩ | ⟨hEq, h1, h2, h3, h4, h5⟩
    · rw [hEq]
      refine ⟨ihAll, ?_, ?_⟩ <;> simp only [List.length_cons] <;> omega
    · rw [hEq]
      refine ⟨?_, ?_, ?_⟩
      · simp only [List.all_cons, isSpam_annot, isDust_annot, isBridge_annot,
          isFailed_annot, isOverhead_annot, h1, h2, h3, h4, h5, ihAll,
          Bool.not_false, Bool.and_self]
      · simp only [List.length_cons]
        omega
      · simp only [List.length_cons]
        omega

/-- Decomposition of a batched upsert: the prior rows whose keys are not
overwritten, in order, followed by the rows the batch itself produces. -/
theorem foldl_upsert_decomp (txs : List Tx) :
    ∀ rows : List TxRow,
      txs.foldl upsertTxRow rows =
        rows.filter (fun r => !(txs.map txRowKey).contains r.txId) ++
          txs.foldl upsertTxRow [] := by
  induction txs with
  | nil => intro rows; simp
  | cons t ts ih =>
    intro rows
    rw [List.foldl_cons, List.foldl_cons, ih (upsertTxRow rows t), ih (upsertTxRow [] t)]
    show (upsertTxRow rows t).filter _ ++ _ = _
    rw [upsertTxRow, List.filter_append, List.filter_filter, List.append_assoc]
    have hpred : ∀ r : TxRow,
        (!((t :: ts).map txRowKey).contains r.txId) =
          ((!(ts.map txRowKey).contains r.txId) && (r.txId != txRowKey t)) := by
      intro r
      by_cases h : r.txId = txRowKey t
      · simp [h, List.contains_cons]
      · simp [List.contains_cons, bne, h, Ne.symm h, Bool.and_comm]
    have : rows.filter (fun r => !((t :: ts).map txRowKey).contains r.txId) =
        rows.filter (fun r => (!(ts.map txRowKey).contains r.txId) && (r.txId != txRowKey t)) :=
      List.filter_congr (fun r _ => hpred r)
    rw [this]
    have hsingle : upsertTxRow [] t = [mkTxRow t] := rfl
    rw [hsingle]

/-- Every row produced by a batched upsert comes from the prior rows or
carries the key of some batch element. -/
theorem mem_foldl_upsert (txs : List Tx) :
    ∀ (rows : List TxRow) (r : TxRow), r ∈ txs.foldl upsertTxRow rows →
      r ∈ rows ∨ r.txId ∈ txs.map txRowKey := by
  induction txs with
  | nil => intro rows r h; exact Or.inl h
  | cons t ts ih =>
    intro rows r h
    rw [List.foldl_cons] at h
    rcases ih (upsertTxRow rows t) r h with h2 | h2
    · rw [upsertTxRow] at h2
      rcases List.mem_append.mp h2 with h3 | h3
      · exact Or.inl (List.mem_of_mem_filter h3)
      · simp only [List.mem_singleton] at h3
        subst h3
        exact Or.inr (by simp [mkTxRow])
    · exact Or.inr (by simp [h2])

/-- Repeating a batched upsert leaves the transaction table unchanged. -/
theorem foldl_upsert_idem (txs : List Tx) (rows : List TxRow) :
    txs.foldl upsertTxRow (txs.foldl upsertTxRow rows) = txs.foldl upsertTxRow rows := by
  rw [foldl_upsert_decomp txs (txs.foldl upsertTxRow rows)]
  rw [foldl_upsert_decomp txs rows]
  rw [List.filter_append, List.filter_filter]
  have h1 : (rows.filter fun r =>
      (!(txs.map txRowKey).contains r.txId) && !(txs.map txRowKey).contains r.txId) =
      rows.filter (fun r => !(txs.map txRowKey).contains r.txId) :=
    List.filter_congr (fun r _ => Bool.and_self _)
  have h2 : ((txs.foldl upsertTxRow []).filter
      (fun r => !(txs.map txRowKey).contains r.txId)) = [] := by
    rw [List.filter_eq_nil_iff]
    intro r hr
    rcases mem_foldl_upsert txs [] r hr with h | h
    · cases h
    · simp [h]
  rw [h1, h2, List.append_nil]

/-- C3: save_transactions is idempotent: a second upsert of the same
transaction set leaves the store unchanged, so count() and every
query(since, until, chain) return the same results before and after the
second call. -/
theorem upsert_idempotent (s : Store) (txs : List Tx) :
    saveTransactions (saveTransactions s txs) txs = saveTransactions s txs ∧
    getTransactionCount (saveTransactions (saveTransactions s txs) txs) =
      getTransactionCount (saveTransactions s txs) ∧
    ∀ (a b : Option Nat) (c : Option String),
      loadTransactions (saveTransactions (saveTransactions s txs) txs) a b c =
        loadTransactions (saveTransactions s txs) a b c := by
  have hmain : saveTransactions (saveTransactions s txs) txs = saveTransactions s txs := by
    by_cases h : txs.isEmpty
    · simp [saveTransactions, h]
    · simp only [saveTransactions, h, if_neg, Bool.false_eq_true, if_false]
      congr 1
      exact foldl_upsert_idem txs s.transactions
  exact ⟨hmain, by rw [hmain], fun a b c => by rw [hmain]⟩

/-- The cate_name annotation does not change the record timestamp. -/
theorem annotateCate_timeAtD (cd : List (String × String)) (t : Tx) :
    (annotateCate cd t).timeAtD = t.timeAtD := by
  unfold annotateCate
  split <;> rfl

/-- Page-scan invariant: records at or after the since bound are the only
ones ever appended, whether the scan finishes the page or stops early. -/
theorem processHistory_preserves_ge (sVal : Nat) (cd : List (String × String))
    (l : List Tx) :
    ∀ acc : List Tx, (acc.all fun t => !decide (t.timeAtD < sVal)) = true →
      (match processHistory (some sVal) cd l acc with
       | .inl a => (a.all fun t => !decide (t.timeAtD < sVal)) = true
       | .inr a => (a.all fun t => !decide (t.timeAtD < sVal)) = true) := by
  induction l with
  | nil => intro acc hacc; exact hacc
  | cons t rest ih =>
    intro acc hacc
    rw [processHistory]
    simp only [Option.getD_some]
    by_cases hg : (pyTruthyNat (some sVal) && decide (t.timeAtD < sVal)) = true
    · rw [if_pos hg]; exact hacc
    · rw [if_neg hg]
      by_cases hs : t.isScam.getD false = true
      · rw [if_pos hs]; exact ih acc hacc
      · rw [if_neg hs]
        refine ih _ ?_
        rw [List.all_append, hacc, Bool.true_and, List.all_cons,
          annotateCate_timeAtD, List.all_nil, Bool.and_true]
        by_cases hz : sVal = 0
        · subst hz; simp
        · simp only [pyTruthyNat, Bool.and_eq_true, bne_iff_ne, ne_eq,
            decide_eq_true_eq, not_and, not_lt] at hg
          simp [hg hz]

/-- A page whose records all lie at or after the since bound is scanned to
the end (no early return). -/
theorem processHistory_inr_of_not_older (sVal : Nat) (cd : List (String × String))
    (l : List Tx) (hl : (l.all fun t => !decide (t.timeAtD < sVal)) = true) :
    ∀ acc, ∃ acc2, processHistory (some sVal) cd l acc = .inr acc2 := by
  induction l with
  | nil => intro acc; exact ⟨acc, rfl⟩
  | cons t rest ih =>
    intro acc
    rw [List.all_cons, Bool.and_eq_true] at hl
    have hg : ¬((pyTruthyNat (some sVal) && decide (t.timeAtD < sVal)) = true) := by
      intro hcon
      rw [Bool.and_eq_true] at hcon
      rw [hcon.2] at hl
      simp at hl
    rw [processHistory]
    simp only [Option.getD_some]
    rw [if_neg hg]
    by_cases hs : t.isScam.getD false = true
    · rw [if_pos hs]; exact ih hl.2 acc
    · rw [if_neg hs]; exact ih hl.2 _

/-- A page containing a record strictly older than the since bound triggers
the early return. -/
theorem processHistory_inl_of_older (sVal : Nat) (cd : List (String × String))
    (l : List Tx) (hl : (l.any fun t => decide (t.timeAtD < sVal)) = true) :
    ∀ acc, ∃ acc2, processHistory (some sVal) cd l acc = .inl acc2 := by
  induction l with
  | nil => simp at hl
  | cons t rest ih =>
    intro acc
    rw [List.any_cons, Bool.or_eq_true] at hl
    rw [processHistory]
    simp only [Option.getD_some]
    by_cases hg : (pyTruthyNat (some sVal) && decide (t.timeAtD < sVal)) = true
    · rw [if_pos hg]; exact ⟨acc, rfl⟩
    · rw [if_neg hg]
      have hrest : (rest.any fun t => decide (t.timeAtD < sVal)) = true := by
        rcases hl with h | h
        · exfalso
          have hnz : sVal ≠ 0 := by
            intro h0; subst h0; simp at h
          apply hg
          simp only [pyTruthyNat, Bool.and_eq_true, bne_iff_ne, ne_eq]
          exact ⟨hnz, h⟩
        · exact h
      by_cases hs : t.isScam.getD false = true
      · rw [if_pos hs]; exact ih hrest acc
      · rw [if_neg hs]; exact ih hrest _

/-- Loop invariant: the pagination loop only ever returns records at or
after the since bound. -/
theorem fetchPages_all_ge (source : Nat → PageResult) (sVal : Nat) (pc : Nat) :
    ∀ (fuel idx : Nat) (st : Option Nat) (accTx : List Tx)
      (accTok : List (String × TokenInfo)) (accProj : List (String × ProjInfo)),
      (accTx.all fun t => !decide (t.timeAtD < sVal)) = true →
      (((fetchPages source (some sVal) pc fuel idx st accTx accTok accProj).1.transactions).all
        (fun t => !decide (t.timeAtD < sVal))) = true := by
  intro fuel
  induction fuel with
  | zero => intro idx st accTx accTok accProj hacc; exact hacc
  | succ fuel ih =>
    intro idx st accTx accTok accProj hacc
    rw [fetchPages]
    cases hsrc : source idx with
    | err => exact hacc
    | ok d =>
      dsimp only
      by_cases hemp : d.historyList.isEmpty
      · rw [dif_pos hemp]; exact hacc
      · rw [dif_neg hemp]
        have hp := processHistory_preserves_ge sVal d.cateDict d.historyList accTx hacc
        cases hres : processHistory (some sVal) d.cateDict d.historyList accTx with
        | inl a =>
          rw [hres] at hp
          dsimp only at hp ⊢
          exact hp
        | inr a =>
          rw [hres] at hp
          dsimp only at hp ⊢
          by_cases hshort : d.historyList.length < pc
          · rw [if_pos hshort]; exact hp
          · rw [if_neg hshort]; exact ih (idx + 1) _ _ _ _ hp

/-- Loop bound: if the first N pages (from the current index) contain no
record older than the since bound and page N does, the loop performs at most
N + 1 further page fetches. -/
theorem fetchPages_count_le (source : Nat → PageResult) (sVal : Nat) (pc : Nat) :
    ∀ (N fuel idx : Nat) (st : Option Nat) (accTx : List Tx)
      (accTok : List (String × TokenInfo)) (accProj : List (String × ProjInfo)),
      (∀ i, i < N → pageNotOlder sVal (source (idx + i)) = true) →
      pageHasOlder sVal (source (idx + N)) = true →
      (fetchPages source (some sVal) pc fuel idx st accTx accTok accProj).2 ≤ N + 1 := by
  intro N
  induction N with
  | zero =>
    intro fuel idx st accTx accTok accProj _ h2
    cases fuel with
    | zero => exact Nat.zero_le 1
    | succ fuel =>
      rw [fetchPages]
      rw [Nat.add_zero] at h2
      cases hsrc : source idx with
      | err => rw [hsrc] at h2
      | ok d =>
        dsimp only
        rw [hsrc] at h2
        simp only [pageHasOlder] at h2
        have hemp : ¬d.historyList.isEmpty := by
          intro hcon
          rw [List.isEmpty_iff.mp hcon] at h2
          simp at h2
        rw [dif_neg hemp]
        obtain ⟨a, ha⟩ := processHistory_inl_of_older sVal d.cateDict d.historyList h2 accTx
        rw [ha]
  | succ N ih =>
    intro fuel idx st accTx accTok accProj h1 h2
    cases fuel with
    | zero => exact Nat.zero_le _
    | succ fuel =>
      rw [fetchPages]
      have h10 := h1 0 (Nat.succ_pos N)
      rw [Nat.add_zero] at h10
      cases hsrc : source idx with
      | err => dsimp only; omega
      | ok d =>
        dsimp only
        rw [hsrc] at h10
        simp only [pageNotOlder] at h10
        by_cases hemp : d.historyList.isEmpty
        · rw [dif_pos hemp]; omega
        · rw [dif_neg hemp]
          obtain ⟨a, ha⟩ :=
            processHistory_inr_of_not_older sVal d.cateDict d.historyList h10 accTx
          rw [ha]
          dsimp only
          by_cases hshort : d.historyList.length < pc
          · rw [if_pos hshort]; omega
          · rw [if_neg hshort]
            have hrec := ih fuel (idx + 1) (if pyTruthyNat
                (d.historyList.getLast (by simpa [List.isEmpty_iff] using hemp)).timeAt
              then (d.historyList.getLast (by simpa [List.isEmpty_iff] using hemp)).timeAt
              else st) a (dictUpdate accTok d.tokenDict) (dictUpdate accProj d.projectDict)
              (fun i hi => by
                have := h1 (i + 1) (by omega)
                rwa [show idx + (i + 1) = idx + 1 + i by omega] at this)
              (by rwa [show idx + 1 + N = idx + (N + 1) by omega])
            omega

/-- C2: the pagination loop never returns a transaction with time_at
strictly before the requested since bound, and when the first N upstream
pages are strictly newer than since while page N contains an older record,
the loop performs at most N + 1 page fetches. -/
theorem pagination_since_bound_and_call_count (source : Nat → PageResult)
    (sVal : Nat) (untilTs : Option Nat) (pageCount maxPages N : Nat)
    (h1 : ∀ i, i < N → pageNotOlder sVal (source i) = true)
    (h2 : pageHasOlder sVal (source N) = true) :
    ((fetchAllHistory source (some sVal) untilTs pageCount maxPages).1.transactions.all
      (fun t => !decide (t.timeAtD < sVal))) = true ∧
    (fetchAllHistory source (some sVal) untilTs pageCount maxPages).2 ≤ N + 1 := by
  constructor
  · exact fetchPages_all_ge source sVal pageCount maxPages 0 untilTs [] [] [] rfl
  · exact fetchPages_count_le source sVal pageCount N maxPages 0 untilTs [] [] []
      (fun i hi => by simpa using h1 i hi) (by simpa using h2)

/-- C2 witness: pagination_since_bound_and_call_count on a concrete mocked
source (one page newer than since = 60, then an older page): no returned
record predates 60 and at most 2 pages are fetched. -/
theorem pagination_since_bound_and_call_count_witness :
    ((fetchAllHistory srcTwoPages (some 60) none 1 10).1.transactions.all
      (fun t => !decide (t.timeAtD < 60))) = true ∧
    (fetchAllHistory srcTwoPages (some 60) none 1 10).2 ≤ 2 :=
  pagination_since_bound_and_call_count srcTwoPages 60 none 1 10 1
    (by decide) (by decide)

/-- Updating a dict with the empty dict changes nothing. -/
theorem dictUpdate_nil (d : List (String × α)) : dictUpdate d [] = d := rfl

/-- A failing page fetch behaves exactly like a clean end of history at that
page: the loop returns the same accumulated result (and performs the same
number of fetches) as it would against a source whose failing page is
replaced by an empty page. -/
theorem fetchPages_err_eq_end (source : Nat → PageResult) (k : Nat)
    (hk : source k = .err) (sinceTs : Option Nat) (pc : Nat) :
    ∀ (fuel idx : Nat) (st : Option Nat) (accTx : List Tx)
      (accTok : List (String × TokenInfo)) (accProj : List (String × ProjInfo)),
      fetchPages source sinceTs pc fuel idx st accTx accTok accProj =
        fetchPages (replacePage source k) sinceTs pc fuel idx st accTx accTok accProj := by
  intro fuel
  induction fuel with
  | zero => intro idx st accTx accTok accProj; rfl
  | succ fuel ih =>
    intro idx st accTx accTok accProj
    rw [fetchPages, fetchPages]
    by_cases hik : idx = k
    · subst hik
      rw [hk]
      have : replacePage source idx idx = .ok {} := by simp [replacePage]
      rw [this]
      rfl
    · have : replacePage source k idx = source idx := by simp [replacePage, hik]
      rw [this]
      cases hsrc : source idx with
      | err => rfl
      | ok d =>
        dsimp only
        by_cases hemp : d.historyList.isEmpty
        · rw [dif_pos hemp, dif_pos hemp]
        · rw [dif_neg hemp, dif_neg hemp]
          cases hres : processHistory sinceTs d.cateDict d.historyList accTx with
          | inl a => rfl
          | inr a =>
            dsimp only
            by_cases hshort : d.historyList.length < pc
            · rw [if_pos hshort, if_pos hshort]
            · rw [if_neg hshort, if_neg hshort, ih]

/-- The same equality lifted to _fetch_all_history. -/
theorem fetchAllHistory_err_eq_end (source : Nat → PageResult) (k : Nat)
    (hk : source k = .err) (sinceTs untilTs : Option Nat) (pc mp : Nat) :
    fetchAllHistory source sinceTs untilTs pc mp =
      fetchAllHistory (replacePage source k) sinceTs untilTs pc mp :=
  fetchPages_err_eq_end source k hk sinceTs pc mp 0 untilTs [] [] []

/-- C5 (amended): a page-fetch failure mid-pagination does not discard the
records accumulated from earlier pages — the whole discovery call, cache
writes included, behaves exactly as if the failing page had been a clean end
of history, so the partial result is written to cache and returned; by the
same equality the response carries no partial marker of any kind and is
indistinguishable from a complete fetch. -/
theorem discovery_error_keeps_accumulated (store : Store) (source : Nat → PageResult)
    (k : Nat) (hk : source k = .err) (usedChainIds : List String)
    (chainNames : List (String × String)) (chains : Option (List String))
    (sinceTs untilTs : Option Nat) (pageCount maxPages : Nat) (forceRefresh : Bool) :
    discoverTransactions store source usedChainIds chainNames chains sinceTs untilTs
      pageCount maxPages forceRefresh =
    discoverTransactions store (replacePage source k) usedChainIds chainNames chains
      sinceTs untilTs pageCount maxPages forceRefresh := by
  unfold discoverTransactions
  simp only [fetchAllHistory_err_eq_end source k hk]

/-- C5 witness: discovery_error_keeps_accumulated on a concrete store and a
source failing on page 1. -/
theorem discovery_error_keeps_accumulated_witness :
    discoverTransactions {} srcFailPage1 ["eth"] [] none none none 1 10 false =
      discoverTransactions {} (replacePage srcFailPage1 1) ["eth"] [] none none none
        1 10 false :=
  discovery_error_keeps_accumulated {} srcFailPage1 1 rfl ["eth"] [] none none none
    1 10 false

/-- C5 counterexample: a discovery call against a source that serves one
full page and then fails returns a nonempty transaction list and a response
byte-identical to that of a source that ends history cleanly — the failing
call is not marked partial in any way, refuting the claim that the caller
receives a result explicitly marked partial with a reason. -/
theorem discovery_error_indistinguishable_cex :
    srcFailPage1 1 = .err ∧
    (∀ i, srcEndPage1 i ≠ .err) ∧
    (discoverTransactions {} srcFailPage1 ["eth"] [] none none none 1 10 false).2.transactions ≠
      [] ∧
    discoverTransactions {} srcFailPage1 ["eth"] [] none none none 1 10 false =
      discoverTransactions {} srcEndPage1 ["eth"] [] none none none 1 10 false := by
  refine ⟨rfl, ?_, by decide, by decide⟩
  intro i
  unfold srcEndPage1
  by_cases h : i = 0 <;> simp [h]

/-- The tie-break fold only ever selects one of the candidates. -/
theorem bestOverlapCandidate_mem (tokens : List String) :
    ∀ (cands : List NftRecord) (b : NftRecord),
      bestOverlapCandidate cands tokens = some b → b ∈ cands := by
  have hgen : ∀ (cands : List NftRecord) (acc : Option NftRecord × Nat) (b : NftRecord),
      (cands.foldl
        (fun (acc : Option NftRecord × Nat) cand =>
          let overlap := (tokens.filter (fun t => cand.tokens.contains t)).length
          if overlap > acc.2 then (some cand, overlap) else acc) acc).1 = some b →
      acc.1 = some b ∨ b ∈ cands := by
    intro cands
    induction cands with
    | nil => intro acc b h; exact Or.inl h
    | cons c cs ih =>
      intro acc b h
      rw [List.foldl_cons] at h
      rcases ih _ b h with h2 | h2
      · dsimp only at h2
        by_cases hov : (tokens.filter (fun t => c.tokens.contains t)).length > acc.2
        · rw [if_pos hov] at h2
          cases h2
          exact Or.inr (List.mem_cons_self c cs)
        · rw [if_neg hov] at h2
          exact Or.inl h2
      · exact Or.inr (List.mem_cons_of_mem c h2)
  intro cands b h
  rcases hgen cands (none, 0) b h with h2 | h2
  · cases h2
  · exact h2

/-- The pool-address resolution loop only returns records that pass the
chain+protocol hard filter. -/
theorem lpMatch_chain_protocol (registry : List (String × List NftRecord))
    (chain projectId : String) (tokens : List String) :
    ∀ (pools : List String) (p : NftRecord),
      lpMatch registry chain projectId tokens pools = some p →
      p.chain = chain ∧ p.protocol = projectId := by
  intro pools
  induction pools with
  | nil => intro p h; cases h
  | cons pool rest ih =>
    intro p h
    rw [lpMatch] at h
    cases hget : dictGet registry pool with
    | none => rw [hget] at h; exact ih p h
    | some cands =>
      rw [hget] at h
      dsimp only at h
      have hmem : p ∈ cands.filter
          (fun q => q.chain == chain && q.protocol == projectId) → _ := fun hm => by
        have := List.of_mem_filter hm
        rw [Bool.and_eq_true, beq_iff_eq, beq_iff_eq] at this
        exact this
      cases hfilt : cands.filter (fun q => q.chain == chain && q.protocol == projectId) with
      | nil => rw [hfilt] at h; exact ih p h
      | cons c cs =>
        rw [hfilt] at h
        cases cs with
        | nil =>
          dsimp only at h
          have hcp : c = p := Option.some_inj.mp h
          subst hcp
          exact hmem (by rw [hfilt]; exact List.mem_cons_self _ _)
        | cons c2 cs2 =>
          dsimp only at h
          cases hbest : bestOverlapCandidate (c :: c2 :: cs2) tokens with
          | none =>
            rw [hbest] at h
            simp only [Option.getD_none] at h
            have hcp : c = p := Option.some_inj.mp h
            subst hcp
            exact hmem (by rw [hfilt]; exact List.mem_cons_self _ _)
          | some b =>
            rw [hbest] at h
            simp only [Option.getD_some] at h
            have hbp : b = p := Option.some_inj.mp h
            subst hbp
            have hmm := bestOverlapCandidate_mem tokens (c :: c2 :: cs2) b hbest
            exact hmem (by rw [hfilt]; exact hmm)

/-- C6 (amended): when the pass-1 registry resolves the non-mint
single pool address of the non-mint transaction to exactly one candidate
after the chain+protocol hard filter, and that candidate belongs to the mint,
the
mint transaction and the non-mint LP transaction are assigned the same
group key chain|protocol|lp|nft:X; and the pool-address resolution never
returns a record whose chain or protocol differs from those of the transaction:
the hard filter precedes the token-overlap tie-break. -/
theorem nft_mint_resolution (txs : List Tx) (tokenDict : List (String × TokenInfo))
    (mint other : Tx) (P X chain proj : String) (cands : List NftRecord) (c : NftRecord)
    (hX : X ≠ "")
    (hmint1 : extractNftId mint = some X)
    (hmint2 : inferPositionType mint = "lp")
    (hproj : isLpProtocol proj = true)
    (hmc : mint.chainD = chain)
    (hmp : pyOrOptStr mint.projectId "unknown" = proj)
    (hoth1 : extractNftId other = none)
    (hoth2 : inferPositionType other = "lp")
    (hoc : other.chainD = chain)
    (hop : pyOrOptStr other.projectId "unknown" = proj)
    (hpool : getPoolAddresses other = [P])
    (hreg : dictGet (buildNftRegistry txs tokenDict) P = some cands)
    (hfilt : cands.filter (fun q => q.chain == chain && q.protocol == proj) = [c])
    (hc : c.nftId = X) :
    (computeGroupKey (buildNftRegistry txs tokenDict) tokenDict mint).1 =
      chain ++ "|" ++ proj ++ "|lp|nft:" ++ X ∧
    (computeGroupKey (buildNftRegistry txs tokenDict) tokenDict other).1 =
      chain ++ "|" ++ proj ++ "|lp|nft:" ++ X ∧
    (∀ (reg : List (String × List NftRecord)) (chain2 proj2 : String)
       (tokens pools : List String) (p : NftRecord),
      lpMatch reg chain2 proj2 tokens pools = some p →
      p.chain = chain2 ∧ p.protocol = proj2) := by
  refine ⟨?_, ?_, fun reg chain2 proj2 tokens pools p h =>
    lpMatch_chain_protocol reg chain2 proj2 tokens pools p h⟩
  · unfold computeGroupKey
    dsimp only
    rw [hmc, hmp, hmint2, hmint1, hproj]
    rw [if_pos (show (("lp" == "lp") && true) = true from rfl)]
    rw [if_pos (show pyTruthyOptStr (some X) = true by simp [pyTruthyOptStr, hX])]
    rfl
  · unfold computeGroupKey
    dsimp only
    rw [hoc, hop, hoth2, hoth1, hproj, hpool]
    rw [if_pos (show (("lp" == "lp") && true) = true from rfl)]
    rw [if_neg (show ¬(pyTruthyOptStr (none : Option String) = true) by
      simp [pyTruthyOptStr])]
    rw [lpMatch, hreg]
    dsimp only
    rw [hfilt]
    dsimp only
    rw [hc]

/-- C6 witness: nft_mint_resolution on the concrete mint mintTxA and the
concrete collect transaction on the same pool/chain/protocol. -/
theorem nft_mint_resolution_witness :
    (computeGroupKey (buildNftRegistry [mintTxA, collectTx] []) [] mintTxA).1 =
      "eth" ++ "|" ++ "eth_uniswap3" ++ "|lp|nft:" ++ "11111111111111111111" ∧
    (computeGroupKey (buildNftRegistry [mintTxA, collectTx] []) [] collectTx).1 =
      "eth" ++ "|" ++ "eth_uniswap3" ++ "|lp|nft:" ++ "11111111111111111111" := by
  have h := nft_mint_resolution [mintTxA, collectTx] [] mintTxA collectTx
    "0xpool" "11111111111111111111" "eth" "eth_uniswap3"
    [⟨"11111111111111111111", ["AAA"], "eth", "eth_uniswap3", 100⟩]
    ⟨"11111111111111111111", ["AAA"], "eth", "eth_uniswap3", 100⟩
    (by decide) (by decide) (by decide) (by decide) (by decide) (by decide)
    (by decide) (by decide) (by decide) (by decide) (by decide) (by decide)
    (by decide) rfl
  exact ⟨h.1, h.2.1⟩

/-- C6 counterexample: two mints on the same pool, chain and protocol (NFT
ids 111... and 222...), followed by a non-mint collect on that pool whose
token overlaps the second mint.  The collect is keyed to nft:222... while
the first mint is keyed to nft:111..., so the claim that every such
mint/non-mint pair lands under the same key fails as stated. -/
theorem nft_mint_resolution_cex :
    mintTxA.chainD = collectTx.chainD ∧
    pyOrOptStr mintTxA.projectId "unknown" = pyOrOptStr collectTx.projectId "unknown" ∧
    getPoolAddresses mintTxA = ["0xpool"] ∧
    getPoolAddresses collectTx = ["0xpool"] ∧
    extractNftId mintTxA = some "11111111111111111111" ∧
    extractNftId collectTx = none ∧
    (computeGroupKey (buildNftRegistry [mintTxA, mintTxB, collectTx] []) [] mintTxA).1 =
      "eth|eth_uniswap3|lp|nft:11111111111111111111" ∧
    (computeGroupKey (buildNftRegistry [mintTxA, mintTxB, collectTx] []) [] collectTx).1 =
      "eth|eth_uniswap3|lp|nft:22222222222222222222" ∧
    (computeGroupKey (buildNftRegistry [mintTxA, mintTxB, collectTx] []) [] mintTxA).1 ≠
      (computeGroupKey (buildNftRegistry [mintTxA, mintTxB, collectTx] []) [] collectTx).1 := by
  decide

/-- Inserting into a sorted list is a permutation of consing. -/
theorem orderedInsertB_perm (le : α → α → Bool) (x : α) :
    ∀ l : List α, (orderedInsertB le x l).Perm (x :: l) := by
  intro l
  induction l with
  | nil => exact List.Perm.refl _
  | cons y ys ih =>
    rw [orderedInsertB]
    by_cases h : le x y = true
    · rw [if_pos h]
    · rw [if_neg h]
      exact ((ih.cons y).trans (List.Perm.swap x y ys))

/-- The insertion sort of the model is a permutation of its input. -/
theorem insertionSortB_perm (le : α → α → Bool) :
    ∀ l : List α, (insertionSortB le l).Perm l := by
  intro l
  induction l with
  | nil => exact List.Perm.refl _
  | cons x xs ih =>
    rw [insertionSortB]
    exact (orderedInsertB_perm le x (insertionSortB le xs)).trans (ih.cons x)

/-- Modifying the value at a present key splits the association list around
the first occurrence of the key. -/
theorem dictModify_decomp (f : β → β) (l : List (String × β)) (k : String) (g : β)
    (h : dictGet l k = some g) :
    ∃ A B, l = A ++ (k, g) :: B ∧ dictModify f l k = A ++ (k, f g) :: B := by
  induction l with
  | nil => cases h
  | cons e rest ih =>
    obtain ⟨k2, v⟩ := e
    by_cases hk : k2 == k
    · have hkk : k2 = k := by simpa using hk
      subst hkk
      have hv : v = g := by
        simp [dictGet, List.find?_cons, hk] at h
        exact h
      subst hv
      refine ⟨[], rest, rfl, ?_⟩
      rw [dictModify]
      simp [hk]
    · have hkf : (k2 == k) = false := by simpa using hk
      have hget : dictGet rest k = some g := by
        simp only [dictGet, List.find?_cons, hkf] at h ⊢
        exact h
      obtain ⟨A, B, hl, hm⟩ := ih hget
      refine ⟨(k2, v) :: A, B, by rw [hl]; rfl, ?_⟩
      rw [dictModify]
      simp only [hk, Bool.false_eq_true, if_false, hm, List.cons_append]

/-- Appending a fresh key and then modifying it rewrites only the appended
entry. -/
theorem dictModify_append_fresh (f : β → β) (l : List (String × β)) (k : String)
    (v : β) (h : dictGet l k = none) :
    dictModify f (l ++ [(k, v)]) k = l ++ [(k, f v)] := by
  induction l with
  | nil => simp [dictModify]
  | cons e rest ih =>
    obtain ⟨k2, w⟩ := e
    have hk : (k2 == k) = false := by
      by_contra hcon
      rw [Bool.not_eq_false] at hcon
      simp [dictGet, List.find?_cons, hcon] at h
    have hget : dictGet rest k = none := by
      simp only [dictGet, List.find?_cons, hk] at h ⊢
      exact h
    rw [List.cons_append, dictModify, hk]
    simp only [Bool.false_eq_true, if_false, ih hget, List.cons_append]

/-- The group update appends exactly the annotated transaction. -/
theorem applyTxToGroup_transactions (ann : AnnTx) (tokens : List String)
    (tokensStr : String) (t : Nat) (g : PositionGroup) :
    (applyTxToGroup ann tokens tokensStr t g).transactions =
      g.transactions ++ [ann] := by
  unfold applyTxToGroup
  dsimp only
  split <;> split <;> rfl

/-- The group update adds exactly the inbound total of the transaction. -/
theorem applyTxToGroup_totalIn (ann : AnnTx) (tokens : List String)
    (tokensStr : String) (t : Nat) (g : PositionGroup) :
    (applyTxToGroup ann tokens tokensStr t g).totalIn = g.totalIn + ann.totalIn := by
  unfold applyTxToGroup
  dsimp only
  split <;> split <;> rfl

/-- The group update adds exactly the outbound total of the transaction. -/
theorem applyTxToGroup_totalOut (ann : AnnTx) (tokens : List String)
    (tokensStr : String) (t : Nat) (g : PositionGroup) :
    (applyTxToGroup ann tokens tokensStr t g).totalOut = g.totalOut + ann.totalOut := by
  unfold applyTxToGroup
  dsimp only
  split <;> split <;> rfl

/-- The group update advances the latest-activity timestamp to the maximum
of the old value and the transaction timestamp. -/
theorem applyTxToGroup_latest (ann : AnnTx) (tokens : List String)
    (tokensStr : String) (t : Nat) (g : PositionGroup) :
    (applyTxToGroup ann tokens tokensStr t g).latestActivity =
      max g.latestActivity t := by
  unfold applyTxToGroup
  dsimp only
  have h2 : ∀ g2 : PositionGroup, g2.latestActivity = g.latestActivity →
      (if t > g2.latestActivity then { g2 with latestActivity := t } else g2).latestActivity =
        max g.latestActivity t := by
    intro g2 hg2
    split
    · rename_i hgt
      rw [hg2] at hgt
      dsimp only
      omega
    · rename_i hle
      rw [hg2] at hle
      rw [hg2]
      omega
  split
  · exact h2 _ rfl
  · exact h2 _ rfl

/-- Moving a singleton out of the middle of an append is a permutation. -/
theorem perm_append_singleton_mid [DecidableEq γ] (X Y Z : List γ) (a : γ) :
    (X ++ (Y ++ [a] ++ Z)).Perm ((X ++ (Y ++ Z)) ++ [a]) := by
  rw [List.perm_iff_count]
  intro b
  simp only [List.count_append]
  omega

/-- One pass-2 step adds exactly the annotated transaction to the bag of all
grouped transactions. -/
theorem groupStep_flatten_perm (reg : List (String × List NftRecord))
    (td : List (String × TokenInfo)) (pd : List (String × ProjInfo))
    (gs : List (String × PositionGroup)) (tx : Tx) :
    (((groupStep reg td pd gs tx).map (fun e => e.2.transactions)).flatten).Perm
      ((gs.map (fun e => e.2.transactions)).flatten ++ [annotateTx reg td tx]) := by
  unfold groupStep
  dsimp only
  by_cases hk : (dictGet gs (computeGroupKey reg td tx).1).isSome
  · rw [if_pos hk]
    obtain ⟨g, hg⟩ := Option.isSome_iff_exists.mp hk
    obtain ⟨A, B, hl, hm⟩ := dictModify_decomp
      (applyTxToGroup (annotateTx reg td tx) (getTransactionTokens tx td)
        (if (getTransactionTokens tx td).isEmpty then "Unknown"
         else String.intercalate "/" (getTransactionTokens tx td)) tx.timeAtD)
      gs (computeGroupKey reg td tx).1 g hg
    rw [hm, hl]
    simp only [List.map_append, List.map_cons, List.flatten_append, List.flatten_cons,
      applyTxToGroup_transactions]
    rw [List.perm_iff_count]
    intro b
    simp only [List.count_append]
    omega
  · rw [if_neg hk]
    rw [Option.not_isSome_iff_eq_none] at hk
    rw [dictModify_append_fresh _ _ _ _ hk]
    simp only [List.map_append, List.map_cons, List.map_nil, List.flatten_append,
      List.flatten_cons, List.flatten_nil, applyTxToGroup_transactions]
    rw [List.perm_iff_count]
    intro b
    simp only [List.count_append, List.count_nil]
    omega

/-- Folding pass 2 over a transaction list adds exactly the annotated input
transactions to the bag of grouped transactions. -/
theorem foldl_groupStep_flatten_perm (reg : List (String × List NftRecord))
    (td : List (String × TokenInfo)) (pd : List (String × ProjInfo)) (txs : List Tx) :
    ∀ gs : List (String × PositionGroup),
      (((txs.foldl (groupStep reg td pd) gs).map (fun e => e.2.transactions)).flatten).Perm
        ((gs.map (fun e => e.2.transactions)).flatten ++ txs.map (annotateTx reg td)) := by
  induction txs with
  | nil => intro gs; simp
  | cons t ts ih =>
    intro gs
    rw [List.foldl_cons]
    refine (ih (groupStep reg td pd gs t)).trans ?_
    have h1 := (groupStep_flatten_perm reg td pd gs t).append_right
      (ts.map (annotateTx reg td))
    refine h1.trans ?_
    rw [List.append_assoc, List.singleton_append, List.map_cons]

/-- Pointwise permutations of the inner lists give a permutation of the
flattened list. -/
theorem flatten_map_perm_pointwise (f g : α → List γ) :
    ∀ l : List α, (∀ a ∈ l, (f a).Perm (g a)) →
      ((l.map f).flatten).Perm ((l.map g).flatten) := by
  intro l
  induction l with
  | nil => intro _; exact List.Perm.refl _
  | cons x xs ih =>
    intro h
    simp only [List.map_cons, List.flatten_cons]
    exact (h x (by simp)).append (ih (fun a ha => h a (by simp [ha])))


/-- The transactions of all returned groups are, as a bag, exactly the
annotated input transactions. -/
theorem groupTransactions_flatten_perm (txs : List Tx)
    (td : List (String × TokenInfo)) (pd : List (String × ProjInfo)) :
    (((groupTransactions txs td pd).map PositionGroup.transactions).flatten).Perm
      (txs.map (annotateTx (buildNftRegistry txs td) td)) := by
  unfold groupTransactions
  dsimp only
  rw [List.map_map]
  refine (flatten_map_perm_pointwise _ PositionGroup.transactions _
    (fun a _ => insertionSortB_perm _ a.transactions)).trans ?_
  refine (((insertionSortB_perm (fun a b : PositionGroup =>
    decide (b.latestActivity ≤ a.latestActivity))
    ((txs.foldl (groupStep (buildNftRegistry txs td) td pd) []).map (·.2))).map
      PositionGroup.transactions).flatten).trans ?_
  rw [List.map_map]
  simpa [Function.comp] using
    foldl_groupStep_flatten_perm (buildNftRegistry txs td) td pd txs []

/-- Every group returned by the grouping algorithm reports as
transactionCount the length of its transaction list. -/
theorem groupTransactions_count_eq_length (txs : List Tx)
    (td : List (String × TokenInfo)) (pd : List (String × ProjInfo)) :
    ∀ g ∈ groupTransactions txs td pd,
      g.transactionCount = g.transactions.length := by
  intro g hg
  unfold groupTransactions at hg
  dsimp only at hg
  rw [List.mem_map] at hg
  obtain ⟨g0, _, rfl⟩ := hg
  rfl

/-- C8: the grouping algorithm partitions its input: stripping the flow
annotation, the transactions of all returned groups are a permutation of
the input list (nothing dropped, nothing duplicated), and the
transactionCount fields sum to the input length. -/
theorem grouping_partitions_input (txs : List Tx)
    (td : List (String × TokenInfo)) (pd : List (String × ProjInfo)) :
    ((((groupTransactions txs td pd).map PositionGroup.transactions).flatten).map
      AnnTx.base).Perm txs ∧
    ((groupTransactions txs td pd).map PositionGroup.transactionCount).sum =
      txs.length := by
  constructor
  · refine ((groupTransactions_flatten_perm txs td pd).map AnnTx.base).trans ?_
    rw [List.map_map]
    have h : ∀ t ∈ txs,
        (AnnTx.base ∘ annotateTx (buildNftRegistry txs td) td) t = id t :=
      fun t _ => rfl
    rw [List.map_congr_left h, List.map_id]
  · have hlen := (groupTransactions_flatten_perm txs td pd).length_eq
    rw [List.length_flatten, List.length_map, List.map_map] at hlen
    have h : ∀ g ∈ groupTransactions txs td pd,
        PositionGroup.transactionCount g =
          (List.length ∘ PositionGroup.transactions) g :=
      fun g hg => groupTransactions_count_eq_length txs td pd g hg
    rw [List.map_congr_left h]
    exact hlen

/-- Every list element is bounded by a max-fold over the list. -/
theorem foldl_max_bounds : ∀ (l : List Nat) (a : Nat),
    (∀ x ∈ l, x ≤ l.foldl max a) ∧ a ≤ l.foldl max a := by
  intro l
  induction l with
  | nil => intro a; exact ⟨by simp, Nat.le_refl a⟩
  | cons y ys ih =>
    intro a
    rw [List.foldl_cons]
    obtain ⟨h1, h2⟩ := ih (max a y)
    refine ⟨?_, le_trans (le_max_left a y) h2⟩
    intro x hx
    rcases List.mem_cons.mp hx with hx | hx
    · subst hx; exact le_trans (le_max_right a x) h2
    · exact h1 x hx

/-- A max-fold is either its initial value or attained by a list element. -/
theorem foldl_max_attained : ∀ (l : List Nat) (a : Nat),
    l.foldl max a = a ∨ l.foldl max a ∈ l := by
  intro l
  induction l with
  | nil => intro a; exact Or.inl rfl
  | cons y ys ih =>
    intro a
    rw [List.foldl_cons]
    rcases ih (max a y) with h | h
    · rw [h]
      rcases Nat.le_total a y with hay | hya
      · rw [Nat.max_eq_right hay]
        exact Or.inr (List.mem_cons_self y ys)
      · rw [Nat.max_eq_left hya]
        exact Or.inl rfl
    · exact Or.inr (List.mem_cons_of_mem y h)

/-- Accumulating one annotated transaction preserves the group invariant
(and establishes it on a fresh group). -/
theorem groupInvP_apply (td : List (String × TokenInfo))
    (reg : List (String × List NftRecord)) (tx : Tx) (tokens : List String)
    (tokensStr : String) (g : PositionGroup)
    (h1 : g.totalIn = (g.transactions.map AnnTx.totalIn).sum)
    (h2 : g.totalOut = (g.transactions.map AnnTx.totalOut).sum)
    (h3 : ∀ m ∈ g.transactions,
      m.flowDirection = (inferFlowDirection m.base td).1 ∧
      m.netValue = (inferFlowDirection m.base td).2.1 ∧
      m.totalIn = (inferFlowDirection m.base td).2.2.1 ∧
      m.totalOut = (inferFlowDirection m.base td).2.2.2)
    (h5 : g.latestActivity = (g.transactions.map (fun m => m.base.timeAtD)).foldl max 0) :
    groupInvP td (applyTxToGroup (annotateTx reg td tx) tokens tokensStr tx.timeAtD g) := by
  refine ⟨?_, ?_, ?_, ?_, ?_⟩
  · rw [applyTxToGroup_totalIn, applyTxToGroup_transactions, List.map_append,
      List.sum_append, h1]
    simp
  · rw [applyTxToGroup_totalOut, applyTxToGroup_transactions, List.map_append,
      List.sum_append, h2]
    simp
  · rw [applyTxToGroup_transactions]
    intro m hm
    rcases List.mem_append.mp hm with hm | hm
    · exact h3 m hm
    · rw [List.mem_singleton] at hm
      subst hm
      exact ⟨rfl, rfl, rfl, rfl⟩
  · rw [applyTxToGroup_transactions]
    simp
  · rw [applyTxToGroup_latest, applyTxToGroup_transactions, List.map_append,
      List.foldl_append, h5]
    rfl

/-- Pass 2 preserves the group invariant for every association-list entry. -/
theorem groupStep_inv (reg : List (String × List NftRecord))
    (td : List (String × TokenInfo)) (pd : List (String × ProjInfo))
    (gs : List (String × PositionGroup)) (tx : Tx)
    (h : ∀ e ∈ gs, groupInvP td e.2) :
    ∀ e ∈ groupStep reg td pd gs tx, groupInvP td e.2 := by
  unfold groupStep
  dsimp only
  by_cases hk : (dictGet gs (computeGroupKey reg td tx).1).isSome
  · rw [if_pos hk]
    obtain ⟨g, hg⟩ := Option.isSome_iff_exists.mp hk
    obtain ⟨A, B, hl, hm⟩ := dictModify_decomp
      (applyTxToGroup (annotateTx reg td tx) (getTransactionTokens tx td)
        (if (getTransactionTokens tx td).isEmpty then "Unknown"
         else String.intercalate "/" (getTransactionTokens tx td)) tx.timeAtD)
      gs (computeGroupKey reg td tx).1 g hg
    rw [hm]
    intro e he
    rcases List.mem_append.mp he with he | he
    · exact h e (by rw [hl]; exact List.mem_append_left _ he)
    · rcases List.mem_cons.mp he with he | he
      · subst he
        obtain ⟨i1, i2, i3, i4, i5⟩ := h ((computeGroupKey reg td tx).1, g)
          (by rw [hl]; exact List.mem_append_right _ (List.mem_cons_self _ _))
        exact groupInvP_apply td reg tx _ _ g i1 i2 i3 i5
      · refine h e ?_
        rw [hl]
        exact List.mem_append_right _ (List.mem_cons_of_mem _ he)
  · rw [if_neg hk]
    rw [Option.not_isSome_iff_eq_none] at hk
    rw [dictModify_append_fresh _ _ _ _ hk]
    intro e he
    rcases List.mem_append.mp he with he | he
    · exact h e he
    · rw [List.mem_singleton] at he
      subst he
      exact groupInvP_apply td reg tx _ _ _ rfl rfl (by simp) rfl

/-- The invariant holds for every entry after folding pass 2 from the empty
group table. -/
theorem foldl_groupStep_inv (reg : List (String × List NftRecord))
    (td : List (String × TokenInfo)) (pd : List (String × ProjInfo))
    (txs : List Tx) :
    ∀ gs : List (String × PositionGroup), (∀ e ∈ gs, groupInvP td e.2) →
      ∀ e ∈ txs.foldl (groupStep reg td pd) gs, groupInvP td e.2 := by
  induction txs with
  | nil => intro gs h; exact h
  | cons t ts ih =>
    intro gs h
    rw [List.foldl_cons]
    exact ih (groupStep reg td pd gs t) (groupStep_inv reg td pd gs t h)

/-- C9: every group returned by the grouping algorithm satisfies the
post-state invariants: netValue = totalIn - totalOut, the totals are the
sums of the member total_in/total_out values as computed by
infer_flow_direction (whose results annotate each member), transactionCount
is the number of members, and latestActivity is the maximum member
timestamp (attained by some member). -/
theorem group_poststate_invariants (txs : List Tx)
    (td : List (String × TokenInfo)) (pd : List (String × ProjInfo)) :
    ((groupTransactions txs td pd).all fun g =>
      decide (g.netValue = g.totalIn - g.totalOut) &&
      decide (g.totalIn = (g.transactions.map AnnTx.totalIn).sum) &&
      decide (g.totalOut = (g.transactions.map AnnTx.totalOut).sum) &&
      (g.transactions.all fun m =>
        decide (m.flowDirection = (inferFlowDirection m.base td).1) &&
        decide (m.netValue = (inferFlowDirection m.base td).2.1) &&
        decide (m.totalIn = (inferFlowDirection m.base td).2.2.1) &&
        decide (m.totalOut = (inferFlowDirection m.base td).2.2.2)) &&
      (g.transactionCount == g.transactions.length) &&
      (g.transactions.all fun m => decide (m.base.timeAtD ≤ g.latestActivity)) &&
      (g.transactions.any fun m => g.latestActivity == m.base.timeAtD)) = true := by
  rw [List.all_eq_true]
  intro g hg
  unfold groupTransactions at hg
  dsimp only at hg
  rw [List.mem_map] at hg
  obtain ⟨g0, hg0, rfl⟩ := hg
  have hg0G : g0 ∈ ((txs.foldl (groupStep (buildNftRegistry txs td) td pd) []).map (·.2)) :=
    ((insertionSortB_perm _ _).mem_iff).mp hg0
  rw [List.mem_map] at hg0G
  obtain ⟨e, heG, rfl⟩ := hg0G
  obtain ⟨i1, i2, i3, i4, i5⟩ :=
    foldl_groupStep_inv (buildNftRegistry txs td) td pd txs [] (by simp) e heG
  have hperm : (insertionSortB
      (fun a b : AnnTx => decide (b.base.timeAtD ≤ a.base.timeAtD))
        e.2.transactions).Perm e.2.transactions := insertionSortB_perm _ _
  simp only [Bool.and_eq_true, decide_eq_true_eq, List.all_eq_true,
    List.any_eq_true, beq_iff_eq]
  have p2 : e.2.totalIn = ((insertionSortB
      (fun a b : AnnTx => decide (b.base.timeAtD ≤ a.base.timeAtD))
        e.2.transactions).map AnnTx.totalIn).sum :=
    i1.trans (hperm.map AnnTx.totalIn).sum_eq.symm
  have p3 : e.2.totalOut = ((insertionSortB
      (fun a b : AnnTx => decide (b.base.timeAtD ≤ a.base.timeAtD))
        e.2.transactions).map AnnTx.totalOut).sum :=
    i2.trans (hperm.map AnnTx.totalOut).sum_eq.symm
  have p6 : ∀ m ∈ insertionSortB
      (fun a b : AnnTx => decide (b.base.timeAtD ≤ a.base.timeAtD)) e.2.transactions,
      m.base.timeAtD ≤ e.2.latestActivity := by
    intro m hm
    rw [i5]
    exact (foldl_max_bounds (e.2.transactions.map (fun m => m.base.timeAtD)) 0).1
      m.base.timeAtD (List.mem_map_of_mem _ (hperm.mem_iff.mp hm))
  have p7 : ∃ m, m ∈ insertionSortB
      (fun a b : AnnTx => decide (b.base.timeAtD ≤ a.base.timeAtD)) e.2.transactions ∧
      e.2.latestActivity = m.base.timeAtD := by
    rcases foldl_max_attained (e.2.transactions.map (fun m => m.base.timeAtD)) 0
      with hcase | hcase
    · obtain ⟨m0, hm0⟩ := List.exists_mem_of_ne_nil _ i4
      have hle : m0.base.timeAtD ≤ 0 := by
        have := (foldl_max_bounds (e.2.transactions.map (fun m => m.base.timeAtD)) 0).1
          m0.base.timeAtD (List.mem_map_of_mem _ hm0)
        omega
      refine ⟨m0, hperm.mem_iff.mpr hm0, ?_⟩
      rw [i5, hcase]
      omega
    · rw [List.mem_map] at hcase
      obtain ⟨m0, hm0, heq⟩ := hcase
      exact ⟨m0, hperm.mem_iff.mpr hm0, i5.trans heq.symm⟩
  exact ⟨⟨⟨⟨⟨⟨trivial, p2⟩, p3⟩, fun m hm =>
    (fun f => ⟨⟨⟨f.1, f.2.1⟩, f.2.2.1⟩, f.2.2.2⟩) (i3 m (hperm.mem_iff.mp hm))⟩,
    trivial⟩, p6⟩, p7⟩
